import Mathlib

/-!
swaylock: the lock session controller of `main.c`

A shallow embedding of `main.c` (the whole program is this one file) and the
properties of its secret buffer, authentication gate, scaling rules and lock
handshake.

Conventions of the embedding

* A byte is a natural number below 256; `(char) x` is `x % 256`.
* The block returned by `malloc(1024)` is a list of 1024 bytes.  An access at
  an index outside the list is undefined behaviour in C; the embedding stops
  there with a `fault` that records the offending index.
* `double` arithmetic is exact rational arithmetic (`ℚ`).
* Everything outside `main.c` (getopt, the registry and window layer, cairo,
  PAM, the Wayland dispatch primitive) is an input of the run, collected in
  `Env`; each call of such a collaborator is appended to the `trace` of the
  state, in program order.
* A use of a block after the PAM library has freed it is undefined behaviour
  too, and stops the run with a `fault` as well.
* `exit(n)` and a `return n` of `main` end the run with exit code `n`.
-/

namespace Swaylock

/-! ## Constants of the included headers -/

/-- Value of `PAM_SUCCESS` in `security/pam_appl.h`. -/
def PAM_SUCCESS : Int := 0

/-- Value of `WL_KEYBOARD_KEY_STATE_PRESSED` in the Wayland client protocol. -/
def WL_KEYBOARD_KEY_STATE_PRESSED : Nat := 1

/-- Value of `WL_KEYBOARD_KEY_STATE_RELEASED` in the Wayland client protocol. -/
def WL_KEYBOARD_KEY_STATE_RELEASED : Nat := 0

/-- Value of `XKB_KEY_Return` in `xkbcommon/xkbcommon-keysyms.h` (0xff0d). -/
def XKB_KEY_Return : Nat := 65293

/-- Value of `EXIT_SUCCESS` in `stdlib.h`. -/
def EXIT_SUCCESS : Nat := 0

/-- Value of `EXIT_FAILURE` in `stdlib.h`. -/
def EXIT_FAILURE : Nat := 1

/-- Size of the block allocated for the password: `malloc(1024)` (line 156). -/
def PASSWORD_CAPACITY : Nat := 1024

/-! ## C strings in a block of bytes -/

/-- The C `strlen` on a block: the index of the first zero byte, `none` when
the scan leaves the block without meeting one (a read out of bounds). -/
def strlen : List Nat → Option Nat
  | [] => none
  | b :: bs => if b = 0 then some 0 else (strlen bs).map (· + 1)

/-- The C `memset(s, c, n)` on a block: the first `n` bytes become `(char) c`;
`none` when `n` exceeds the block (a write out of bounds). -/
def memset (s : List Nat) (c n : Nat) : Option (List Nat) :=
  if n ≤ s.length then some (List.replicate n (c % 256) ++ s.drop n) else none

/-- The assignment `s[i] = v` on a block; `none` when `i` is outside it. -/
def store (s : List Nat) (i v : Nat) : Option (List Nat) :=
  if i < s.length then some (s.set i v) else none

/-- The bytes of the C string held at the start of a block. -/
def cstr (s : List Nat) : List Nat := s.takeWhile (· ≠ 0)

/-! ## Collaborator calls and the program state -/

/-- One call of a collaborator, or one write of the `locked` flag, as it
appears in the trace of a run. -/
inductive Ev where
  | version_printed
  | usage_printed
  | window_setup (i : Nat)
  | window_prerender (w : Nat)
  | cairo_scale (w : Nat) (sx sy : ℚ)
  | cairo_set_source_surface (w : Nat) (x y : ℚ)
  | cairo_set_source (w : Nat)
  | cairo_paint (w : Nat)
  | window_render (w : Nat)
  | cairo_surface_destroy
  | wl_display_dispatch (r : Int)
  | lock_set_lock_surface (output w : Nat)
  | locked_true
  | pam_start (r : Int)
  | pam_authenticate (secret : List Nat) (r : Int)
  | pam_end (r : Int)
  | window_teardown (w : Nat)
  | list_free
  | registry_teardown
deriving DecidableEq, Repr

/-- A `struct window`: the index of the output it was set up for and the
dimensions handed to `window_setup`. -/
structure Window where
  id : Nat
  width : Nat
  height : Nat
deriving DecidableEq, Repr

/-- The globals of `main.c` (`password`, `surfaces`), the local `locked` of
`main`, the number of calls of `verify_password` so far, and the trace. -/
structure State where
  password : List Nat
  surfaces : List Window
  locked : Bool
  attempts : Nat
  trace : List Ev
deriving DecidableEq, Repr

/-- Append one event to the trace. -/
def State.log (s : State) (e : Ev) : State := { s with trace := s.trace ++ [e] }

/-- Kinds of undefined behaviour the embedding detects. -/
inductive Fault where
  | password_read (i : Nat)
  | password_write (i : Nat)
  | surfaces_read (i : Nat)
  | password_use_after_free
  | null_dereference
deriving DecidableEq, Repr

/-- Outcome of a function call: it returns a value, or the process ends
inside it through `exit`, or it runs into undefined behaviour. -/
inductive Step (α : Type) where
  | ret (a : α) (s : State)
  | exit (code : Nat) (s : State)
  | fault (f : Fault) (s : State)
deriving DecidableEq, Repr

/-- Outcome of a run of the program on a finite stream of events: the process
ended with an exit code, or it consumed the whole stream and waits in
`wl_display_dispatch` for the next event, or it ran into undefined
behaviour. -/
inductive Run where
  | exited (code : Nat) (s : State)
  | blocked (s : State)
  | fault (f : Fault) (s : State)
deriving DecidableEq, Repr

/-- The state a run ended in. -/
def Run.state : Run → State
  | .exited _ s => s
  | .blocked s => s
  | .fault _ s => s

/-- The exit code of a run that ended with one. -/
def Run.exitCode : Run → Option Nat
  | .exited c _ => some c
  | .blocked _ => none
  | .fault _ _ => none

/-- What the libraries do in one call of `verify_password`: the three return
codes of the PAM transaction, the number of times `pam_authenticate` calls the
conversation callback (0 for a stack that asks nothing, 1 for a stack that
asks for the password once), and whether `getpwuid` finds the user (a non-NULL
result). -/
structure PamResult where
  pam_start : Int
  pam_authenticate : Int
  pam_end : Int
  conversations : Nat
  getpwuid : Bool
deriving DecidableEq, Repr

/-- The authentication oracle: what the libraries do in the call of
`verify_password` with the given number, for the secret found at the address
the conversation callback hands over. -/
abbrev Oracle := Nat → List Nat → PamResult

/-- The addresses the program stores in the `resp` field of a reply: the only
one is the value of the global `password`, the address of the password block
itself. -/
inductive Ptr where
  | password
deriving DecidableEq, Repr

/-- A `struct pam_response`. -/
structure pam_response where
  resp : Ptr
  resp_retcode : Int
deriving DecidableEq, Repr

/-- One key event as delivered to the `notify` callback of the registry. -/
structure KeyEvent where
  state : Nat
  sym : Nat
  code : Nat
  codepoint : Nat
deriving DecidableEq, Repr

/-- One call of `wl_display_dispatch`: the key events it delivers, in order,
and the value it returns. -/
structure Dispatch where
  keys : List KeyEvent
  result : Int
deriving DecidableEq, Repr

/-- The five values of `enum scaling_mode` (lines 19-25). -/
inductive scaling_mode where
  | SCALING_MODE_STRETCH
  | SCALING_MODE_FILL
  | SCALING_MODE_FIT
  | SCALING_MODE_CENTER
  | SCALING_MODE_TILE
deriving DecidableEq, Repr

/-- Everything a run receives from outside `main.c`. -/
structure Env where
  /-- successive results of `getopt_long`: the option character and `optarg`;
  the end of the list is the result `-1` -/
  getopt_long : List (Char × String)
  /-- the indeterminate contents of the block returned by `malloc(1024)` -/
  malloc : Nat → Nat
  /-- is `registry->swaylock` non-NULL -/
  swaylock : Bool
  /-- width and height of the entries of `registry->outputs` -/
  outputs : List (Nat × Nat)
  /-- does `window_setup` return a window for output `i` -/
  window_setup : Nat → Bool
  /-- is the program built with `WITH_GDK_PIXBUF` -/
  with_gdk_pixbuf : Bool
  /-- does `gdk_pixbuf_new_from_file` return a pixbuf -/
  pixbuf : Bool
  /-- width and height of the decoded image, `none` for a NULL surface -/
  image : Option (Nat × Nat)
  /-- result of `window_prerender` for window `w` -/
  window_prerender : Nat → Bool
  /-- is `window->cairo` non-NULL after the prerender of window `w` -/
  window_cairo : Nat → Bool
  /-- the calls of `wl_display_dispatch`, in order -/
  events : List Dispatch
  /-- the authentication oracle -/
  pam : Oracle

/-! ## `sway_terminate`, `sway_abort` -/

/-- The loop of `sway_terminate` (lines 29-32). -/
def teardown_windows : List Window → State → State
  | [], s => s
  | w :: ws, s => teardown_windows ws (s.log (Ev.window_teardown w.id))

/-- The teardown shared by `sway_terminate` (lines 29-34) and the end of `main`
(lines 295-300). -/
def teardown (s : State) : State :=
  ((teardown_windows s.surfaces s).log Ev.list_free).log Ev.registry_teardown

/-- Lines 27-36. -/
def sway_terminate {α : Type} (s : State) : Step α :=
  Step.exit EXIT_FAILURE (teardown s)

/-- Modelled from the spec: `sway_abort` is declared in `log.h`, which is not
part of the sources; the specification says that an abort terminates the whole
process with a nonzero exit code after a diagnostic message.  It is taken to
end in `sway_terminate`, the only terminating function `main.c` defines for
it. -/
def sway_abort {α : Type} (s : State) : Step α := sway_terminate s

/-! ## The authentication gate -/

/-- Lines 40-49: the conversation callback puts the pointer `password` itself,
not a copy of the string, into the reply and reports `PAM_SUCCESS`. -/
def function_conversation : pam_response × Int :=
  (⟨Ptr.password, 0⟩, PAM_SUCCESS)

/-- The C string PAM finds at the address of a reply. -/
def read_reply (p : pam_response) (s : State) : List Nat :=
  match p.resp with
  | .password => cstr s.password

/-- Is the password block released when `pam_authenticate` has returned.  By
the contract of `pam_conv` the library owns the `resp` string of every reply:
it wipes and frees it after use.  The reply of `function_conversation` is the
password block, so one call of the callback releases that block and leaves the
global `password` dangling. -/
def password_released (p : pam_response) (conversations : Nat) : Bool :=
  match p.resp with
  | .password => decide (0 < conversations)

/-- The statement `memset(password, 0, strlen(password))` (lines 65, 69, 72);
`freed` says whether the block `password` points to has been released. -/
def zero_password (freed : Bool) (s : State) : Except Fault State :=
  if freed then .error Fault.password_use_after_free
  else
    match strlen s.password with
    | none => .error (Fault.password_read s.password.length)
    | some n =>
      match memset s.password 0 n with
      | none => .error (Fault.password_write s.password.length)
      | some p => .ok { s with password := p }

/-- Lines 54-74.  The oracle says what `getpwuid` and the PAM library do in
this call.  A NULL result of `getpwuid` is dereferenced in line 56.  A second
call of the conversation callback hands the library a block it has already
freed. -/
def verify_password (pam : Oracle) (s : State) : Step Bool :=
  let r := pam s.attempts (read_reply function_conversation.1 s)
  let s0 := { s with attempts := s.attempts + 1 }
  if !r.getpwuid then
    Step.fault Fault.null_dereference s0
  else
    let s1 := s0.log (Ev.pam_start r.pam_start)
    if r.pam_start ≠ PAM_SUCCESS then
      sway_abort s1
    else if 2 ≤ r.conversations then
      Step.fault Fault.password_use_after_free s1
    else
      let freed := password_released function_conversation.1 r.conversations
      let s2 := s1.log
        (Ev.pam_authenticate (read_reply function_conversation.1 s) r.pam_authenticate)
      if r.pam_authenticate ≠ PAM_SUCCESS then
        match zero_password freed s2 with
        | .error f => Step.fault f s2
        | .ok s3 => Step.ret false s3
      else
        let s3 := s2.log (Ev.pam_end r.pam_end)
        if r.pam_end ≠ PAM_SUCCESS then
          match zero_password freed s3 with
          | .error f => Step.fault f s3
          | .ok s4 => Step.ret false s4
        else
          match zero_password freed s3 with
          | .error f => Step.fault f s3
          | .ok s4 => Step.ret true s4

/-! ## The key event handler -/

/-- Lines 76-93. -/
def notify_key (pam : Oracle) (state sym _code codepoint : Nat) (s : State) : Step Unit :=
  if state = WL_KEYBOARD_KEY_STATE_PRESSED then
    if sym = XKB_KEY_Return then
      match verify_password pam s with
      | .ret true s1 => Step.exit 0 s1
      | .ret false s1 => Step.ret () s1
      | .exit c s1 => Step.exit c s1
      | .fault f s1 => Step.fault f s1
    else
      match strlen s.password with
      | none => Step.fault (Fault.password_read s.password.length) s
      | some i =>
        match store s.password i (codepoint % 256) with
        | none => Step.fault (Fault.password_write i) s
        | some p1 =>
          match store p1 (i + 1) 0 with
          | none => Step.fault (Fault.password_write (i + 1)) { s with password := p1 }
          | some p2 => Step.ret () { s with password := p2 }
  else
    Step.ret () s

/-! ## The scaling rules of the paint loop -/

/-- Scale factors and offset handed to `cairo_scale` and
`cairo_set_source_surface`. -/
structure Transform where
  scale_x : ℚ
  scale_y : ℚ
  x : ℚ
  y : ℚ
deriving DecidableEq, Repr

/-- Lines 213-218: `case SCALING_MODE_STRETCH`. -/
def stretch (window_width window_height width height : ℚ) : Transform :=
  ⟨window_width / width, window_height / height, 0, 0⟩

/-- Lines 219-238: `case SCALING_MODE_FILL`. -/
def fill (window_width window_height width height : ℚ) : Transform :=
  let window_ratio := window_width / window_height
  let bg_ratio := width / height
  if window_ratio > bg_ratio then
    let scale := window_width / width
    ⟨scale, scale, 0, window_height / 2 / scale - height / 2⟩
  else
    let scale := window_height / height
    ⟨scale, scale, window_width / 2 / scale - width / 2, 0⟩

/-- Lines 239-258: `case SCALING_MODE_FIT`. -/
def fit (window_width window_height width height : ℚ) : Transform :=
  let window_ratio := window_width / window_height
  let bg_ratio := width / height
  if window_ratio > bg_ratio then
    let scale := window_height / height
    ⟨scale, scale, window_width / 2 / scale - width / 2, 0⟩
  else
    let scale := window_width / width
    ⟨scale, scale, 0, window_height / 2 / scale - height / 2⟩

/-- Lines 259-263: `case SCALING_MODE_CENTER` (no call of `cairo_scale`). -/
def center (window_width window_height width height : ℚ) : Transform :=
  ⟨1, 1, window_width / 2 - width / 2, window_height / 2 - height / 2⟩

/-- Lines 212-273: the `switch` on the scaling mode for one window.  The
`default` branch of the source is unreachable: the five cases cover the
enumeration. -/
def set_source (mode : scaling_mode) (w : Window) (width height : ℚ) (s : State) : State :=
  match mode with
  | .SCALING_MODE_STRETCH =>
    let t := stretch w.width w.height width height
    (s.log (Ev.cairo_scale w.id t.scale_x t.scale_y)).log (Ev.cairo_set_source_surface w.id t.x t.y)
  | .SCALING_MODE_FILL =>
    let t := fill w.width w.height width height
    (s.log (Ev.cairo_scale w.id t.scale_x t.scale_y)).log (Ev.cairo_set_source_surface w.id t.x t.y)
  | .SCALING_MODE_FIT =>
    let t := fit w.width w.height width height
    (s.log (Ev.cairo_scale w.id t.scale_x t.scale_y)).log (Ev.cairo_set_source_surface w.id t.x t.y)
  | .SCALING_MODE_CENTER =>
    let t := center w.width w.height width height
    s.log (Ev.cairo_set_source_surface w.id t.x t.y)
  | .SCALING_MODE_TILE =>
    s.log (Ev.cairo_set_source w.id)

/-- Lines 209-279: the paint loop over `surfaces`. -/
def paint_surfaces (env : Env) (mode : scaling_mode) (width height : ℚ) :
    List Window → State → State
  | [], s => s
  | w :: ws, s =>
    let s1 := s.log (Ev.window_prerender w.id)
    if env.window_prerender w.id && env.window_cairo w.id then
      let s2 := set_source mode w width height s1
      let s3 := s2.log (Ev.cairo_paint w.id)
      let s4 := s3.log (Ev.window_render w.id)
      paint_surfaces env mode width height ws s4
    else
      paint_surfaces env mode width height ws s1

/-! ## `main` -/

/-- The local variables `image_path` and `scaling_mode_str` of `main`. -/
structure Options where
  image_path : Option String
  scaling_mode_str : String
deriving DecidableEq, Repr

/-- Lines 119-148: the option loop. -/
def parse_options : List (Char × String) → Options → State → Step Options
  | [], o, s => Step.ret o s
  | (c, optarg) :: rest, o, s =>
    if c = 'i' then parse_options rest { o with image_path := some optarg } s
    else if c = 's' then parse_options rest { o with scaling_mode_str := optarg } s
    else if c = 't' then parse_options rest { o with scaling_mode_str := "tile" } s
    else if c = 'v' then Step.exit EXIT_SUCCESS (s.log Ev.version_printed)
    else Step.exit EXIT_FAILURE (s.log Ev.usage_printed)

/-- Lines 165-173: one window per output, appended to `surfaces`. -/
def create_surfaces (env : Env) : List (Nat × Nat) → Nat → State → Step Unit
  | [], _, s => Step.ret () s
  | (width, height) :: rest, i, s =>
    let s1 := s.log (Ev.window_setup i)
    if env.window_setup i then
      create_surfaces env rest (i + 1) { s1 with surfaces := s1.surfaces ++ [⟨i, width, height⟩] }
    else
      sway_abort s1

/-- Lines 177-190: decoding the image, in both build configurations. -/
def load_image (env : Env) (s : State) : Step (Nat × Nat) :=
  if env.with_gdk_pixbuf && !env.pixbuf then sway_abort s
  else
    match env.image with
    | none => sway_abort s
    | some d => Step.ret d s

/-- Lines 194-207: the scaling mode named by `scaling_mode_str`. -/
def parse_scaling_mode (scaling_mode_str : String) (s : State) : Step scaling_mode :=
  if scaling_mode_str = "stretch" then Step.ret .SCALING_MODE_STRETCH s
  else if scaling_mode_str = "fill" then Step.ret .SCALING_MODE_FILL s
  else if scaling_mode_str = "fit" then Step.ret .SCALING_MODE_FIT s
  else if scaling_mode_str = "center" then Step.ret .SCALING_MODE_CENTER s
  else if scaling_mode_str = "tile" then Step.ret .SCALING_MODE_TILE s
  else sway_abort s

/-- Lines 156-157: `password = malloc(1024); password[0] = 0`. -/
def new_password (env : Env) : List Nat :=
  ((List.range PASSWORD_CAPACITY).map (fun i => env.malloc i % 256)).set 0 0

/-- Lines 96-281 of `main`: everything before the session loop. -/
def startup (env : Env) : Step Unit :=
  let s : State := ⟨[], [], false, 0, []⟩
  match parse_options env.getopt_long ⟨none, "fit"⟩ s with
  | .exit c s1 => Step.exit c s1
  | .fault f s1 => Step.fault f s1
  | .ret o s1 =>
    if o.image_path.isNone then Step.exit EXIT_FAILURE s1
    else
      let s2 := { s1 with password := new_password env, surfaces := [] }
      if !env.swaylock then sway_abort s2
      else
        match create_surfaces env env.outputs 0 s2 with
        | .exit c s3 => Step.exit c s3
        | .fault f s3 => Step.fault f s3
        | .ret _ s3 =>
          match load_image env s3 with
          | .exit c s4 => Step.exit c s4
          | .fault f s4 => Step.fault f s4
          | .ret (width, height) s4 =>
            match parse_scaling_mode o.scaling_mode_str s4 with
            | .exit c s5 => Step.exit c s5
            | .fault f s5 => Step.fault f s5
            | .ret mode s5 =>
              let s6 := paint_surfaces env mode width height s5.surfaces s5
              Step.ret () (s6.log Ev.cairo_surface_destroy)

/-- Modelled from the spec: `wl_display_dispatch` and the keyboard listener of
the registry are not part of the sources; the specification says the dispatch
blocks for the next events and hands each key event to the key-event handler
synchronously.  Here one dispatch delivers its key events, in order, to the
`notify` callback installed in line 175 and then returns its result. -/
def deliver_keys (pam : Oracle) : List KeyEvent → State → Step Unit
  | [], s => Step.ret () s
  | k :: ks, s =>
    match notify_key pam k.state k.sym k.code k.codepoint s with
    | .ret _ s1 => deliver_keys pam ks s1
    | .exit c s1 => Step.exit c s1
    | .fault f s1 => Step.fault f s1

/-- One call `wl_display_dispatch(registry->display)` of line 284. -/
def wl_display_dispatch (pam : Oracle) (d : Dispatch) (s : State) : Step Int :=
  match deliver_keys pam d.keys s with
  | .ret _ s1 => Step.ret d.result (s1.log (Ev.wl_display_dispatch d.result))
  | .exit c s1 => Step.exit c s1
  | .fault f s1 => Step.fault f s1

/-- Lines 286-290: the announcement loop, from index `i`, with `n` outputs
left. -/
def lock_surfaces : Nat → Nat → State → Except (Fault × State) State
  | 0, _, s => .ok s
  | n + 1, i, s =>
    match s.surfaces[i]? with
    | none => .error (Fault.surfaces_read i, s)
    | some w => lock_surfaces n (i + 1) (s.log (Ev.lock_set_lock_surface i w.id))

/-- Lines 283-302: the session loop with `noutputs = registry->outputs->length`,
and the end of `main`. -/
def session_loop (pam : Oracle) (noutputs : Nat) : List Dispatch → State → Run
  | [], s => Run.blocked s
  | d :: ds, s =>
    match wl_display_dispatch pam d s with
    | .exit c s1 => Run.exited c s1
    | .fault f s1 => Run.fault f s1
    | .ret r s1 =>
      if r ≠ -1 then
        if !s1.locked then
          match lock_surfaces noutputs 0 s1 with
          | .error (f, s2) => Run.fault f s2
          | .ok s2 => session_loop pam noutputs ds ({ s2 with locked := true }.log Ev.locked_true)
        else
          session_loop pam noutputs ds s1
      else
        Run.exited 0 (teardown s1)

/-- Lines 95-303. -/
def main (env : Env) : Run :=
  match startup env with
  | .exit c s => Run.exited c s
  | .fault f s => Run.fault f s
  | .ret _ s => session_loop env.pam env.outputs.length env.events s

/-! ## Predicates on traces and states, and the sample runs of the theorems -/

/-- A run that reaches the session loop and then receives 1024 presses of the
key "a" in one dispatch. -/
def overflow_env : Env where
  getopt_long := [('i', "background.png")]
  malloc := fun _ => 0
  swaylock := true
  outputs := []
  window_setup := fun _ => true
  with_gdk_pixbuf := true
  pixbuf := true
  image := some (1, 1)
  window_prerender := fun _ => true
  window_cairo := fun _ => true
  events := [⟨List.replicate 1024 ⟨WL_KEYBOARD_KEY_STATE_PRESSED, 97, 38, 97⟩, 1024⟩]
  pam := fun _ _ => ⟨0, 7, 0, 1, true⟩

/-- The state a call ended in. -/
def Step.state {α : Type} : Step α → State
  | .ret _ s => s
  | .exit _ s => s
  | .fault _ s => s

/-- The paint and present calls for a surface. -/
def Ev.isPaint : Ev → Bool
  | .cairo_paint _ => true
  | .window_render _ => true
  | _ => false

/-- The events of the armament: an announcement, or the write of `locked`. -/
def Ev.isArm : Ev → Bool
  | .lock_set_lock_surface _ _ => true
  | .locked_true => true
  | _ => false

/-- Events that are neither paint or present calls nor part of the armament. -/
def Ev.quiet (e : Ev) : Bool := !e.isPaint && !e.isArm

/-- State `t` comes from state `s` by calls that leave `surfaces` and `locked`
alone and append to the trace only events satisfying `P`. -/
def Grows (P : Ev → Bool) (s t : State) : Prop :=
  t.surfaces = s.surfaces ∧ t.locked = s.locked ∧
    ∃ ext, t.trace = s.trace ++ ext ∧ ∀ e ∈ ext, P e = true

/-- The surfaces list has at each index a window whose id is that index. -/
def Indexed (l : List Window) : Prop := ∀ j, j < l.length → ∃ w, l[j]? = some w ∧ w.id = j

/-- The armament has not begun: `locked` is false and the trace holds no
announcement and no write of `locked`. -/
def Unarmed (s : State) : Prop := s.locked = false ∧ ∀ e ∈ s.trace, e.isArm = false

/-- A paint or present call is guarded when the prerender step of its window
succeeded and the window has a cairo context (the condition of line 211);
every other event is guarded. -/
def Ev.guarded (env : Env) : Ev → Bool
  | .cairo_paint w => env.window_prerender w && env.window_cairo w
  | .window_render w => env.window_prerender w && env.window_cairo w
  | _ => true

/-- Every paint or present call of the trace is guarded. -/
def Guarded (env : Env) (s : State) : Prop := ∀ e ∈ s.trace, e.guarded env = true

/-- An exit inside the key handler carries `EXIT_FAILURE`, or it carries 0 and
comes right after a successful `pam_end`. -/
def ExitOk (c : Nat) (t : State) : Prop :=
  c = EXIT_FAILURE ∨ (c = 0 ∧ ∃ pre, t.trace = pre ++ [Ev.pam_end PAM_SUCCESS])

/-- A run that reaches the session loop with no outputs and whose first
dispatch fails with -1. -/
def disconnect_env : Env where
  getopt_long := [('i', "background.png")]
  malloc := fun _ => 0
  swaylock := true
  outputs := []
  window_setup := fun _ => true
  with_gdk_pixbuf := true
  pixbuf := true
  image := some (1, 1)
  window_prerender := fun _ => true
  window_cairo := fun _ => true
  events := [⟨[], -1⟩]
  pam := fun _ _ => ⟨0, 7, 0, 1, true⟩

/-- A run that reaches the session loop with two outputs, tiles the image on
both, and receives two successful dispatches. -/
def armed_env : Env where
  getopt_long := [('i', "background.png"), ('t', "")]
  malloc := fun _ => 0
  swaylock := true
  outputs := [(1920, 1080), (1280, 1024)]
  window_setup := fun _ => true
  with_gdk_pixbuf := false
  pixbuf := false
  image := some (640, 480)
  window_prerender := fun _ => true
  window_cairo := fun _ => true
  events := [⟨[], 1⟩, ⟨[⟨WL_KEYBOARD_KEY_STATE_PRESSED, 97, 38, 97⟩], 1⟩]
  pam := fun _ _ => ⟨0, 7, 0, 1, true⟩

/-- A run that reaches the session loop with two outputs, tiles the image on
both, and receives one successful dispatch. -/
def painted_env : Env where
  getopt_long := [('i', "background.png"), ('t', "")]
  malloc := fun _ => 0
  swaylock := true
  outputs := [(1920, 1080), (1280, 1024)]
  window_setup := fun _ => true
  with_gdk_pixbuf := false
  pixbuf := false
  image := some (640, 480)
  window_prerender := fun _ => true
  window_cairo := fun _ => true
  events := [⟨[], 1⟩]
  pam := fun _ _ => ⟨0, 7, 0, 1, true⟩

/-- A run that reaches the session loop with one output whose prerender step
fails, and receives one successful dispatch. -/
def unpainted_env : Env where
  getopt_long := [('i', "background.png")]
  malloc := fun _ => 0
  swaylock := true
  outputs := [(1920, 1080)]
  window_setup := fun _ => true
  with_gdk_pixbuf := false
  pixbuf := false
  image := some (640, 480)
  window_prerender := fun _ => false
  window_cairo := fun _ => true
  events := [⟨[], 1⟩]
  pam := fun _ _ => ⟨0, 7, 0, 1, true⟩

/-! ## Blocks and C strings: basic facts -/

theorem strlen_append_zero (a r : List Nat) (ha : ∀ b ∈ a, b ≠ 0) :
    strlen (a ++ 0 :: r) = some a.length := by
  induction a with
  | nil => simp [strlen]
  | cons x xs ih =>
    have hx : x ≠ 0 := ha x (by simp)
    have hxs : ∀ b ∈ xs, b ≠ 0 := fun b hb => ha b (by simp [hb])
    simp [strlen, hx, ih hxs]

theorem strlen_split (s : List Nat) (n : Nat) (h : strlen s = some n) :
    ∃ a r, s = a ++ 0 :: r ∧ a.length = n ∧ ∀ b ∈ a, b ≠ 0 := by
  induction s generalizing n with
  | nil => simp [strlen] at h
  | cons x xs ih =>
    by_cases hx : x = 0
    · subst hx
      simp [strlen] at h
      exact ⟨[], xs, by simp, by simp [h], by simp⟩
    · simp only [strlen, hx, if_false, Option.map_eq_some'] at h
      obtain ⟨m, hm, rfl⟩ := h
      obtain ⟨a, r, hs, hl, hnz⟩ := ih m hm
      refine ⟨x :: a, r, by simp [hs], by simp [hl], ?_⟩
      intro b hb
      rcases List.mem_cons.mp hb with rfl | hb
      · exact hx
      · exact hnz b hb

theorem cstr_append_zero (a r : List Nat) (ha : ∀ b ∈ a, b ≠ 0) :
    cstr (a ++ 0 :: r) = a := by
  induction a with
  | nil => simp [cstr]
  | cons x xs ih =>
    have hx : x ≠ 0 := ha x (by simp)
    have hxs : ∀ b ∈ xs, b ≠ 0 := fun b hb => ha b (by simp [hb])
    have hstep : cstr ((x :: xs) ++ 0 :: r) = x :: cstr (xs ++ 0 :: r) := by
      simp [cstr, List.takeWhile_cons, hx]
    rw [hstep, ih hxs]

theorem set_append_length (a r : List Nat) (y v : Nat) :
    (a ++ y :: r).set a.length v = a ++ v :: r := by
  induction a with
  | nil => simp
  | cons x xs ih => simp [ih]

theorem store_append (a r : List Nat) (y v : Nat) :
    store (a ++ y :: r) a.length v = some (a ++ v :: r) := by
  simp [store, set_append_length]

theorem store_out_of_bounds (a : List Nat) (v : Nat) : store a a.length v = none := by
  simp [store]

theorem memset_append (a r : List Nat) (c : Nat) :
    memset (a ++ r) c a.length = some (List.replicate a.length (c % 256) ++ r) := by
  simp [memset]

theorem zero_password_eq (s : State) (a r : List Nat) (hp : s.password = a ++ 0 :: r)
    (ha : ∀ b ∈ a, b ≠ 0) :
    zero_password false s = .ok { s with password := List.replicate a.length 0 ++ 0 :: r } := by
  simp [zero_password, hp, strlen_append_zero a r ha, memset_append]

/-! ## The authentication gate: erasure and verdict -/

/-- Symbolic execution of `verify_password` when `getpwuid` finds the user and
PAM never calls the conversation callback, on a block that holds the secret
`a` followed by its terminator: the block stays with the program, the verdict
follows the three return codes, and the secret is overwritten with zeros on
every returning path. -/
theorem verify_password_eq (pam : Oracle) (s : State) (a r : List Nat)
    (hp : s.password = a ++ 0 :: r) (ha : ∀ b ∈ a, b ≠ 0)
    (hpw : (pam s.attempts a).getpwuid = true) (hconv : (pam s.attempts a).conversations = 0) :
    verify_password pam s =
      if (pam s.attempts a).pam_start ≠ PAM_SUCCESS then
        Step.exit EXIT_FAILURE (teardown ⟨s.password, s.surfaces, s.locked, s.attempts + 1,
          s.trace ++ [Ev.pam_start (pam s.attempts a).pam_start]⟩)
      else if (pam s.attempts a).pam_authenticate ≠ PAM_SUCCESS then
        Step.ret false ⟨List.replicate a.length 0 ++ 0 :: r, s.surfaces, s.locked,
          s.attempts + 1,
          s.trace ++ [Ev.pam_start (pam s.attempts a).pam_start] ++
            [Ev.pam_authenticate a (pam s.attempts a).pam_authenticate]⟩
      else
        Step.ret (decide ((pam s.attempts a).pam_end = PAM_SUCCESS))
          ⟨List.replicate a.length 0 ++ 0 :: r, s.surfaces, s.locked, s.attempts + 1,
          s.trace ++ [Ev.pam_start (pam s.attempts a).pam_start] ++
            [Ev.pam_authenticate a (pam s.attempts a).pam_authenticate] ++
            [Ev.pam_end (pam s.attempts a).pam_end]⟩ := by
  have hc : cstr s.password = a := by rw [hp]; exact cstr_append_zero a r ha
  have hs : strlen (a ++ 0 :: r) = some a.length := strlen_append_zero a r ha
  have hm : memset (a ++ 0 :: r) 0 a.length = some (List.replicate a.length 0 ++ 0 :: r) := by
    simpa using memset_append a (0 :: r) 0
  unfold verify_password
  simp only [function_conversation, read_reply, password_released, hc, hpw, hconv]
  by_cases h1 : (pam s.attempts a).pam_start = PAM_SUCCESS
  · by_cases h2 : (pam s.attempts a).pam_authenticate = PAM_SUCCESS
    · by_cases h3 : (pam s.attempts a).pam_end = PAM_SUCCESS
      · simp [h1, h2, h3, zero_password, State.log, hp, hs, hm]
      · simp [h1, h2, h3, zero_password, State.log, hp, hs, hm]
    · simp [h1, h2, zero_password, State.log, hp, hs, hm]
  · simp [h1, sway_abort, sway_terminate, State.log, hp]

/-- Symbolic execution of `verify_password` when `getpwuid` finds the user, the
session opens, and PAM calls the conversation callback once: the library frees
the password block it was handed, and the `memset` that precedes every
`return` runs on the freed block. -/
theorem verify_password_freed (pam : Oracle) (s : State)
    (hpw : (pam s.attempts (cstr s.password)).getpwuid = true)
    (hstart : (pam s.attempts (cstr s.password)).pam_start = PAM_SUCCESS)
    (hconv : (pam s.attempts (cstr s.password)).conversations = 1) :
    verify_password pam s = Step.fault Fault.password_use_after_free
      ⟨s.password, s.surfaces, s.locked, s.attempts + 1,
        s.trace ++ [Ev.pam_start PAM_SUCCESS] ++
          [Ev.pam_authenticate (cstr s.password)
            (pam s.attempts (cstr s.password)).pam_authenticate] ++
          (if (pam s.attempts (cstr s.password)).pam_authenticate = PAM_SUCCESS
            then [Ev.pam_end (pam s.attempts (cstr s.password)).pam_end] else [])⟩ := by
  unfold verify_password
  simp only [function_conversation, read_reply, password_released, hpw, hstart, hconv]
  by_cases h2 : (pam s.attempts (cstr s.password)).pam_authenticate = PAM_SUCCESS
  · by_cases h3 : (pam s.attempts (cstr s.password)).pam_end = PAM_SUCCESS
    · simp [h2, h3, zero_password, State.log]
    · simp [h2, h3, zero_password, State.log]
  · simp [h2, zero_password, State.log]

/-- C1 (the code at the failing input).  For every content of the password
block and each of the three outcomes on which `verify_password` is meant to
return (whatever the results of the round and of the session close), when PAM
asks for the password once: the call does not return with an erased buffer;
the `memset` of lines 65, 69 and 72 runs on the block PAM has freed. -/
theorem verify_password_erases_freed_block (s : State) (auth fin : Int) :
    (∃ t, verify_password (fun _ _ => ⟨PAM_SUCCESS, auth, fin, 1, true⟩) s
      = Step.fault Fault.password_use_after_free t) ∧
    ∀ v t, verify_password (fun _ _ => ⟨PAM_SUCCESS, auth, fin, 1, true⟩) s ≠ Step.ret v t := by
  have h := verify_password_freed (fun _ _ => ⟨PAM_SUCCESS, auth, fin, 1, true⟩) s rfl rfl rfl
  refine ⟨⟨_, h⟩, ?_⟩
  intro v t hv
  rw [h] at hv
  exact absurd hv (by simp)

/-- Symbolic execution of `notify_key` for a pressed key other than Return, on
a block with room for one more byte after the secret `a`. -/
theorem notify_key_append_eq (pam : Oracle) (sym code c : Nat) (s : State)
    (a r : List Nat) (x : Nat) (hp : s.password = a ++ 0 :: x :: r) (ha : ∀ b ∈ a, b ≠ 0)
    (hsym : sym ≠ XKB_KEY_Return) :
    notify_key pam WL_KEYBOARD_KEY_STATE_PRESSED sym code c s =
      Step.ret () { s with password := a ++ (c % 256) :: 0 :: r } := by
  have h1 : store (a ++ 0 :: x :: r) a.length (c % 256) = some (a ++ (c % 256) :: x :: r) :=
    store_append a (x :: r) 0 (c % 256)
  have h2 : store (a ++ (c % 256) :: x :: r) (a.length + 1) 0 = some (a ++ (c % 256) :: 0 :: r) := by
    have := store_append (a ++ [c % 256]) r x 0
    simpa using this
  simp [notify_key, hsym, hp, strlen_append_zero a (x :: r) ha, h1, h2]

/-- Symbolic execution of `notify_key` for a pressed key other than Return, on
a block whose last byte is the terminator of the secret `a`: the second store
of the handler leaves the block. -/
theorem notify_key_full_eq (pam : Oracle) (sym code c : Nat) (s : State)
    (a : List Nat) (hp : s.password = a ++ [0]) (ha : ∀ b ∈ a, b ≠ 0)
    (hsym : sym ≠ XKB_KEY_Return) :
    notify_key pam WL_KEYBOARD_KEY_STATE_PRESSED sym code c s =
      Step.fault (Fault.password_write (a.length + 1)) { s with password := a ++ [c % 256] } := by
  have h1 : store (a ++ [0]) a.length (c % 256) = some (a ++ [c % 256]) :=
    store_append a [] 0 (c % 256)
  have h2 : store (a ++ [c % 256]) (a.length + 1) 0 = none := by
    have := store_out_of_bounds (a ++ [c % 256]) 0
    simpa using this
  simp [notify_key, hsym, hp, strlen_append_zero a [] ha, h1, h2]

theorem set_zero_map_range (n : Nat) (f : Nat → Nat) :
    ∃ r, ((List.range (n + 1)).map f).set 0 0 = 0 :: r ∧ r.length = n := by
  refine ⟨(List.range n).map (fun i => f (i + 1)), ?_, by simp⟩
  rw [List.range_succ_eq_map]
  simp [Function.comp_def]

/-- The block created in `main` starts with the terminator and has 1024
bytes. -/
theorem new_password_eq (env : Env) :
    ∃ r, new_password env = 0 :: r ∧ r.length = 1023 :=
  set_zero_map_range 1023 (fun i => env.malloc i % 256)

/-- A block of `m + 1` bytes that holds the secret `a` and its terminator has a
secret of at most `m` bytes in it, and one of fewer bytes has a byte after the
terminator. -/
theorem block_room (p : List Nat) (n : Nat) (hn : strlen p = some n) (hroom : n + 1 < p.length) :
    ∃ a x r, p = a ++ 0 :: x :: r ∧ a.length = n ∧ ∀ b ∈ a, b ≠ 0 := by
  obtain ⟨a, r, hp, hl, hnz⟩ := strlen_split p n hn
  cases r with
  | nil =>
    rw [hp] at hroom
    simp [hl] at hroom
  | cons x r => exact ⟨a, x, r, hp, hl, hnz⟩

/-- A pressed key other than Return whose code point has a nonzero low byte,
on a block with room: the byte is appended and the block stays terminated. -/
theorem notify_key_append_ok (pam : Oracle) (sym code c : Nat) (s : State) (n : Nat)
    (hsym : sym ≠ XKB_KEY_Return) (hn : strlen s.password = some n)
    (hroom : n + 1 < s.password.length) (hc : c % 256 ≠ 0) :
    ∃ p, notify_key pam WL_KEYBOARD_KEY_STATE_PRESSED sym code c s
        = Step.ret () { s with password := p } ∧
      cstr p = cstr s.password ++ [c % 256] ∧ strlen p = some (n + 1) ∧
      p.length = s.password.length := by
  obtain ⟨a, x, r, hp, hl, hnz⟩ := block_room s.password n hn hroom
  have hnz1 : ∀ b ∈ a ++ [c % 256], b ≠ 0 := by
    intro b hb
    rcases List.mem_append.mp hb with hb | hb
    · exact hnz b hb
    · simp at hb
      rw [hb]
      exact hc
  have hshape : a ++ (c % 256) :: 0 :: r = (a ++ [c % 256]) ++ 0 :: r := by simp
  refine ⟨a ++ (c % 256) :: 0 :: r, notify_key_append_eq pam sym code c s a r x hp hnz hsym,
    ?_, ?_, ?_⟩
  · rw [hshape, cstr_append_zero _ r hnz1, hp, cstr_append_zero a (x :: r) hnz]
  · rw [hshape, strlen_append_zero _ r hnz1]
    simp [hl]
  · simp [hp]

/-- C9, as amended (append on key press).  For every pressed key that is not
the commit key, for every code point `c` whose low byte `c % 256` (what the
cast to `char` keeps) is not zero, and for every 1024-byte block holding a
secret of length `n` with `n + 1 < 1024`: after `notify_key` the block holds
the old secret followed by the byte `c % 256`, its length is `n + 1`, and
nothing else of the state changes.  Hence pressing "a", "b", "c" on the empty
buffer leaves "abc" in it. -/
theorem notify_key_appends_low_byte (pam : Oracle) :
    (∀ (sym code c : Nat) (s : State) (n : Nat),
      sym ≠ XKB_KEY_Return → s.password.length = PASSWORD_CAPACITY →
      strlen s.password = some n → n + 1 < PASSWORD_CAPACITY → c % 256 ≠ 0 →
      ∃ p, notify_key pam WL_KEYBOARD_KEY_STATE_PRESSED sym code c s
          = Step.ret () { s with password := p } ∧
        cstr p = cstr s.password ++ [c % 256] ∧ strlen p = some (n + 1) ∧
        p.length = PASSWORD_CAPACITY) ∧
    (∀ s : State, s.password.length = PASSWORD_CAPACITY → strlen s.password = some 0 →
      ∃ p, deliver_keys pam [⟨WL_KEYBOARD_KEY_STATE_PRESSED, 97, 38, 97⟩,
          ⟨WL_KEYBOARD_KEY_STATE_PRESSED, 98, 56, 98⟩,
          ⟨WL_KEYBOARD_KEY_STATE_PRESSED, 99, 54, 99⟩] s = Step.ret () { s with password := p } ∧
        cstr p = [97, 98, 99] ∧ strlen p = some 3) := by
  constructor
  · intro sym code c s n hsym hcap hn hroom hc
    obtain ⟨p, h1, h2, h3, h4⟩ :=
      notify_key_append_ok pam sym code c s n hsym hn (by rw [hcap]; exact hroom) hc
    exact ⟨p, h1, h2, h3, by rw [h4, hcap]⟩
  · intro s hcap hn
    have hempty : cstr s.password = [] := by
      obtain ⟨a, r, hp, hl, hnz⟩ := strlen_split s.password 0 hn
      rw [hp, cstr_append_zero a r hnz]
      exact List.length_eq_zero.mp hl
    obtain ⟨p1, e1, c1, l1, k1⟩ := notify_key_append_ok pam 97 38 97 s 0
      (by decide) hn (by rw [hcap]; decide) (by decide)
    obtain ⟨p2, e2, c2, l2, k2⟩ := notify_key_append_ok pam 98 56 98 { s with password := p1 } 1
      (by decide) l1 (by simp only [k1, hcap]; decide) (by decide)
    obtain ⟨p3, e3, c3, l3, -⟩ := notify_key_append_ok pam 99 54 99 { s with password := p2 } 2
      (by decide) l2 (by simp only [k2, k1, hcap]; decide) (by decide)
    refine ⟨p3, ?_, ?_, l3⟩
    · simp only [deliver_keys, e1, e2, e3]
    · rw [c3, c2, c1, hempty]
      rfl

/-- Witness of C9 as amended: the key "a" on the empty zero-filled block. -/
theorem notify_key_appends_low_byte_witness :
    ∃ p, notify_key (fun _ _ => ⟨0, 0, 0, 1, true⟩) WL_KEYBOARD_KEY_STATE_PRESSED 97 38 97
        ⟨List.replicate 1024 0, [], true, 0, []⟩
        = Step.ret () ⟨p, [], true, 0, []⟩ ∧
      cstr p = cstr (List.replicate 1024 0) ++ [97 % 256] ∧ strlen p = some (0 + 1) ∧
      p.length = PASSWORD_CAPACITY :=
  (notify_key_appends_low_byte (fun _ _ => ⟨0, 0, 0, 1, true⟩)).1 97 38 97
    ⟨List.replicate 1024 0, [], true, 0, []⟩ 0 (by decide) (List.length_replicate 1024 0)
    rfl (by decide) (by decide)

/-- Counterexample of C9 as stated.  A pressed Shift key (keysym 0xffe1, code
point 0) on the empty block leaves the block as it was: its length stays 0
instead of becoming 1.  A pressed key with code point 321 (U+0141) on the empty
block appends the byte 65, not 321. -/
theorem notify_key_append_counterexample :
    (notify_key (fun _ _ => ⟨0, 0, 0, 1, true⟩) WL_KEYBOARD_KEY_STATE_PRESSED 65505 50 0
        ⟨List.replicate 1024 0, [], true, 0, []⟩
        = Step.ret () ⟨List.replicate 1024 0, [], true, 0, []⟩ ∧
      strlen (List.replicate 1024 0) = some 0 ∧ 65505 ≠ XKB_KEY_Return) ∧
    (notify_key (fun _ _ => ⟨0, 0, 0, 1, true⟩) WL_KEYBOARD_KEY_STATE_PRESSED 419 46 321
        ⟨List.replicate 1024 0, [], true, 0, []⟩
        = Step.ret () ⟨65 :: List.replicate 1023 0, [], true, 0, []⟩ ∧
      cstr (65 :: List.replicate 1023 0) = [65] ∧ 419 ≠ XKB_KEY_Return) := by
  have hp : (⟨List.replicate 1024 0, [], true, 0, []⟩ : State).password
      = [] ++ 0 :: 0 :: List.replicate 1022 0 := rfl
  refine ⟨⟨?_, rfl, by decide⟩, ?_, rfl, by decide⟩
  · rw [notify_key_append_eq _ 65505 50 0 _ [] (List.replicate 1022 0) 0 hp (by simp) (by decide)]
    rfl
  · rw [notify_key_append_eq _ 419 46 321 _ [] (List.replicate 1022 0) 0 hp (by simp) (by decide)]
    rfl

/-! ## The key event handler: the end of the block -/

/-- Pressing the same key with a nonzero low byte once more than the block has
free bytes after the terminator: the last press stores its terminator one past
the block. -/
theorem deliver_keys_overflow (pam : Oracle) (sym code c : Nat) (hsym : sym ≠ XKB_KEY_Return)
    (hc : c % 256 ≠ 0) (r : List Nat) :
    ∀ (a : List Nat) (s : State), (∀ b ∈ a, b ≠ 0) → s.password = a ++ 0 :: r →
      deliver_keys pam (List.replicate (r.length + 1) ⟨WL_KEYBOARD_KEY_STATE_PRESSED, sym, code, c⟩) s
        = Step.fault (Fault.password_write (a.length + r.length + 1))
            { s with password := a ++ List.replicate (r.length + 1) (c % 256) } := by
  induction r with
  | nil =>
    intro a s ha hp
    simp [deliver_keys, notify_key_full_eq pam sym code c s a hp ha hsym]
  | cons x r ih =>
    intro a s ha hp
    have ha1 : ∀ b ∈ a ++ [c % 256], b ≠ 0 := by
      intro b hb
      rcases List.mem_append.mp hb with hb | hb
      · exact ha b hb
      · simp at hb
        rw [hb]
        exact hc
    have hstep := notify_key_append_eq pam sym code c s a r x hp ha hsym
    have hnext := ih (a ++ [c % 256]) { s with password := a ++ (c % 256) :: 0 :: r } ha1 (by simp)
    rw [List.length_cons, List.replicate_succ, deliver_keys]
    simp only [hstep, hnext]
    simp [List.replicate_succ, Nat.add_assoc, Nat.add_comm 1]

/-- The startup of a run with an image option, the lock extension, a decoded
image and no outputs. -/
theorem startup_no_outputs (env : Env) (path : String) (d : Nat × Nat)
    (hopt : env.getopt_long = [('i', path)]) (hlock : env.swaylock = true)
    (hout : env.outputs = []) (hpix : (env.with_gdk_pixbuf && !env.pixbuf) = false)
    (himg : env.image = some d) :
    startup env = Step.ret () ⟨new_password env, [], false, 0, [Ev.cairo_surface_destroy]⟩ := by
  simp [startup, parse_options, hopt, hlock, hout, create_surfaces, load_image, hpix, himg,
    parse_scaling_mode, paint_surfaces, State.log]

theorem main_of_startup (env : Env) (s : State) (h : startup env = Step.ret () s) :
    main env = session_loop env.pam env.outputs.length env.events s := by
  simp only [main, h]

theorem wl_display_dispatch_fault (pam : Oracle) (d : Dispatch) (s t : State) (f : Fault)
    (h : deliver_keys pam d.keys s = Step.fault f t) :
    wl_display_dispatch pam d s = Step.fault f t := by
  simp only [wl_display_dispatch, h]

theorem session_loop_fault (pam : Oracle) (n : Nat) (d : Dispatch) (ds : List Dispatch)
    (s t : State) (f : Fault) (h : wl_display_dispatch pam d s = Step.fault f t) :
    session_loop pam n (d :: ds) s = Run.fault f t := by
  simp only [session_loop, h]

/-- C2 (the code at the failing input).  In the run `overflow_env` the handler
receives 1024 presses of "a" on the block of 1024 bytes created in `main`; the
last press writes its terminator at byte index 1024, outside the block. -/
theorem notify_key_writes_past_capacity :
    main overflow_env = Run.fault (Fault.password_write 1024)
      ⟨List.replicate 1024 97, [], false, 0, [Ev.cairo_surface_destroy]⟩ := by
  obtain ⟨r, hr, hlen⟩ := new_password_eq overflow_env
  have hstart : startup overflow_env
      = Step.ret () ⟨new_password overflow_env, [], false, 0, [Ev.cairo_surface_destroy]⟩ :=
    startup_no_outputs overflow_env "background.png" (1, 1) rfl rfl rfl rfl rfl
  have hkeys := deliver_keys_overflow overflow_env.pam 97 38 97 (by decide) (by decide) r []
    ⟨new_password overflow_env, [], false, 0, [Ev.cairo_surface_destroy]⟩ (by simp) (by simpa using hr)
  rw [hlen] at hkeys
  rw [main_of_startup overflow_env _ hstart]
  exact session_loop_fault _ _ _ [] _ _ _ (wl_display_dispatch_fault _ _ _ _ _ hkeys)

/-! ## The key event handler: the commit key -/

theorem notify_key_commit_fault (pam : Oracle) (code c : Nat) (s t : State) (f : Fault)
    (h : verify_password pam s = Step.fault f t) :
    notify_key pam WL_KEYBOARD_KEY_STATE_PRESSED XKB_KEY_Return code c s = Step.fault f t := by
  simp only [notify_key, if_true, h]

theorem deliver_keys_fault (pam : Oracle) (k : KeyEvent) (ks : List KeyEvent) (s t : State)
    (f : Fault) (h : notify_key pam k.state k.sym k.code k.codepoint s = Step.fault f t) :
    deliver_keys pam (k :: ks) s = Step.fault f t := by
  simp only [deliver_keys, h]

/-- C10 (the code at the failing input).  A pressed Return, on every buffer
content, with a PAM stack that asks for the password once, whatever the results
of the round and of the session close: the handler neither exits with code 0
nor returns with an empty buffer; `verify_password` ends in the `memset` on the
block PAM has freed, and no later key of the dispatch is handled. -/
theorem notify_key_commit_after_free (s : State) (code c : Nat) (auth fin : Int)
    (ks : List KeyEvent) :
    ∃ t, notify_key (fun _ _ => ⟨PAM_SUCCESS, auth, fin, 1, true⟩)
        WL_KEYBOARD_KEY_STATE_PRESSED XKB_KEY_Return code c s
        = Step.fault Fault.password_use_after_free t ∧
      deliver_keys (fun _ _ => ⟨PAM_SUCCESS, auth, fin, 1, true⟩)
        (⟨WL_KEYBOARD_KEY_STATE_PRESSED, XKB_KEY_Return, code, c⟩ :: ks) s
        = Step.fault Fault.password_use_after_free t :=
  have h := verify_password_freed (fun _ _ => ⟨PAM_SUCCESS, auth, fin, 1, true⟩) s rfl rfl rfl
  ⟨_, notify_key_commit_fault _ code c s _ _ h,
    deliver_keys_fault _ ⟨WL_KEYBOARD_KEY_STATE_PRESSED, XKB_KEY_Return, code, c⟩ ks s _ _
      (notify_key_commit_fault _ code c s _ _ h)⟩

/-! ## The scaling rules -/

theorem scale_offset (o i s : ℚ) (hs : s ≠ 0) : s * (o / 2 / s - i / 2) = (o - s * i) / 2 := by
  field_simp
  ring

theorem ratio_gt_iff (ow oh iw ih : ℚ) (hoh : 0 < oh) (hih : 0 < ih) :
    ow / oh > iw / ih ↔ iw * oh < ow * ih := by
  rw [gt_iff_lt, div_lt_div_iff₀ hih hoh]

/-- C7 (fit scaling over exact rational arithmetic).  For all positive output
and image dimensions the fit rule uses one scale for both axes; the scaled
image is inside the output in both dimensions; one dimension equals the
output's with offset 0 and the other is centred; and for the 1000x500 output
with the 2000x500 image the scale is 1/2 and the vertical offset is 250. -/
theorem fit_scaling (ow oh iw ih : ℚ) (how : 0 < ow) (hoh : 0 < oh) (hiw : 0 < iw)
    (hih : 0 < ih) :
    (fit ow oh iw ih).scale_x = (fit ow oh iw ih).scale_y ∧
    (fit ow oh iw ih).scale_x * iw ≤ ow ∧
    (fit ow oh iw ih).scale_x * ih ≤ oh ∧
    (((fit ow oh iw ih).scale_x * iw = ow ∧ (fit ow oh iw ih).x = 0 ∧
        (fit ow oh iw ih).scale_x * (fit ow oh iw ih).y
          = (oh - (fit ow oh iw ih).scale_x * ih) / 2) ∨
      ((fit ow oh iw ih).scale_x * ih = oh ∧ (fit ow oh iw ih).y = 0 ∧
        (fit ow oh iw ih).scale_x * (fit ow oh iw ih).x
          = (ow - (fit ow oh iw ih).scale_x * iw) / 2)) ∧
    fit 1000 500 2000 500 = ⟨1 / 2, 1 / 2, 0, 250⟩ := by
  have hex : fit 1000 500 2000 500 = ⟨1 / 2, 1 / 2, 0, 250⟩ := by
    norm_num [fit]
  by_cases h : ow / oh > iw / ih
  · have hlt : iw * oh < ow * ih := (ratio_gt_iff ow oh iw ih hoh hih).mp h
    have hs : oh / ih ≠ 0 := (div_pos hoh hih).ne'
    have h1 : oh / ih * ih = oh := div_mul_cancel₀ oh hih.ne'
    have h2 : oh / ih * iw ≤ ow := by
      rw [div_mul_eq_mul_div, div_le_iff₀ hih]
      linarith
    have hf : fit ow oh iw ih = ⟨oh / ih, oh / ih, ow / 2 / (oh / ih) - iw / 2, 0⟩ := by
      simp only [fit, h, if_true]
    rw [hf]
    exact ⟨rfl, h2, h1.le, Or.inr ⟨h1, rfl, scale_offset ow iw (oh / ih) hs⟩, hex⟩
  · have hle : ow * ih ≤ iw * oh := by
      have := (ratio_gt_iff ow oh iw ih hoh hih).not.mp h
      linarith
    have hs : ow / iw ≠ 0 := (div_pos how hiw).ne'
    have h1 : ow / iw * iw = ow := div_mul_cancel₀ ow hiw.ne'
    have h2 : ow / iw * ih ≤ oh := by
      rw [div_mul_eq_mul_div, div_le_iff₀ hiw]
      linarith
    have hf : fit ow oh iw ih = ⟨ow / iw, ow / iw, 0, oh / 2 / (ow / iw) - ih / 2⟩ := by
      simp only [fit, h, if_false]
    rw [hf]
    exact ⟨rfl, h1.le, h2, Or.inl ⟨h1, rfl, scale_offset oh ih (ow / iw) hs⟩, hex⟩

/-- Witness of C7: a 1920x1080 output and a 1024x768 image. -/
theorem fit_scaling_witness :
    (fit 1920 1080 1024 768).scale_x = (fit 1920 1080 1024 768).scale_y ∧
    (fit 1920 1080 1024 768).scale_x * 1024 ≤ 1920 ∧
    (fit 1920 1080 1024 768).scale_x * 768 ≤ 1080 ∧
    (((fit 1920 1080 1024 768).scale_x * 1024 = 1920 ∧ (fit 1920 1080 1024 768).x = 0 ∧
        (fit 1920 1080 1024 768).scale_x * (fit 1920 1080 1024 768).y
          = (1080 - (fit 1920 1080 1024 768).scale_x * 768) / 2) ∨
      ((fit 1920 1080 1024 768).scale_x * 768 = 1080 ∧ (fit 1920 1080 1024 768).y = 0 ∧
        (fit 1920 1080 1024 768).scale_x * (fit 1920 1080 1024 768).x
          = (1920 - (fit 1920 1080 1024 768).scale_x * 1024) / 2)) ∧
    fit 1000 500 2000 500 = ⟨1 / 2, 1 / 2, 0, 250⟩ :=
  fit_scaling 1920 1080 1024 768 (by norm_num) (by norm_num) (by norm_num) (by norm_num)

/-- C8 (fill scaling over exact rational arithmetic).  For all positive output
and image dimensions the fill rule uses one scale for both axes; the scaled
image covers the output in both dimensions; one dimension equals the output's
with offset 0 and the other is cropped symmetrically, its scaled offset being
half the (nonpositive) difference; and for the 1000x500 output with the
2000x500 image the scale is 1 and the horizontal offset is -500. -/
theorem fill_scaling (ow oh iw ih : ℚ) (how : 0 < ow) (hoh : 0 < oh) (hiw : 0 < iw)
    (hih : 0 < ih) :
    (fill ow oh iw ih).scale_x = (fill ow oh iw ih).scale_y ∧
    ow ≤ (fill ow oh iw ih).scale_x * iw ∧
    oh ≤ (fill ow oh iw ih).scale_x * ih ∧
    (((fill ow oh iw ih).scale_x * iw = ow ∧ (fill ow oh iw ih).x = 0 ∧
        (fill ow oh iw ih).scale_x * (fill ow oh iw ih).y
          = (oh - (fill ow oh iw ih).scale_x * ih) / 2 ∧
        (oh - (fill ow oh iw ih).scale_x * ih) / 2 ≤ 0) ∨
      ((fill ow oh iw ih).scale_x * ih = oh ∧ (fill ow oh iw ih).y = 0 ∧
        (fill ow oh iw ih).scale_x * (fill ow oh iw ih).x
          = (ow - (fill ow oh iw ih).scale_x * iw) / 2 ∧
        (ow - (fill ow oh iw ih).scale_x * iw) / 2 ≤ 0)) ∧
    fill 1000 500 2000 500 = ⟨1, 1, -500, 0⟩ := by
  have hex : fill 1000 500 2000 500 = ⟨1, 1, -500, 0⟩ := by
    norm_num [fill]
  by_cases h : ow / oh > iw / ih
  · have hlt : iw * oh < ow * ih := (ratio_gt_iff ow oh iw ih hoh hih).mp h
    have hs : ow / iw ≠ 0 := (div_pos how hiw).ne'
    have h1 : ow / iw * iw = ow := div_mul_cancel₀ ow hiw.ne'
    have h2 : oh ≤ ow / iw * ih := by
      rw [div_mul_eq_mul_div, le_div_iff₀ hiw]
      linarith
    have hf : fill ow oh iw ih = ⟨ow / iw, ow / iw, 0, oh / 2 / (ow / iw) - ih / 2⟩ := by
      simp only [fill, h, if_true]
    rw [hf]
    exact ⟨rfl, h1.ge, h2, Or.inl ⟨h1, rfl, scale_offset oh ih (ow / iw) hs, by linarith⟩,
      hex⟩
  · have hle : ow * ih ≤ iw * oh := by
      have := (ratio_gt_iff ow oh iw ih hoh hih).not.mp h
      linarith
    have hs : oh / ih ≠ 0 := (div_pos hoh hih).ne'
    have h1 : oh / ih * ih = oh := div_mul_cancel₀ oh hih.ne'
    have h2 : ow ≤ oh / ih * iw := by
      rw [div_mul_eq_mul_div, le_div_iff₀ hih]
      linarith
    have hf : fill ow oh iw ih = ⟨oh / ih, oh / ih, ow / 2 / (oh / ih) - iw / 2, 0⟩ := by
      simp only [fill, h, if_false]
    rw [hf]
    exact ⟨rfl, h2, h1.ge, Or.inr ⟨h1, rfl, scale_offset ow iw (oh / ih) hs, by linarith⟩,
      hex⟩

/-- Witness of C8: a 1920x1080 output and a 1024x768 image. -/
theorem fill_scaling_witness :
    (fill 1920 1080 1024 768).scale_x = (fill 1920 1080 1024 768).scale_y ∧
    1920 ≤ (fill 1920 1080 1024 768).scale_x * 1024 ∧
    1080 ≤ (fill 1920 1080 1024 768).scale_x * 768 ∧
    (((fill 1920 1080 1024 768).scale_x * 1024 = 1920 ∧ (fill 1920 1080 1024 768).x = 0 ∧
        (fill 1920 1080 1024 768).scale_x * (fill 1920 1080 1024 768).y
          = (1080 - (fill 1920 1080 1024 768).scale_x * 768) / 2 ∧
        (1080 - (fill 1920 1080 1024 768).scale_x * 768) / 2 ≤ 0) ∨
      ((fill 1920 1080 1024 768).scale_x * 768 = 1080 ∧ (fill 1920 1080 1024 768).y = 0 ∧
        (fill 1920 1080 1024 768).scale_x * (fill 1920 1080 1024 768).x
          = (1920 - (fill 1920 1080 1024 768).scale_x * 1024) / 2 ∧
        (1920 - (fill 1920 1080 1024 768).scale_x * 1024) / 2 ≤ 0)) ∧
    fill 1000 500 2000 500 = ⟨1, 1, -500, 0⟩ :=
  fill_scaling 1920 1080 1024 768 (by norm_num) (by norm_num) (by norm_num) (by norm_num)

/-! ## Traces: how each function extends the trace -/

theorem Grows.refl (P : Ev → Bool) (s : State) : Grows P s s :=
  ⟨rfl, rfl, [], by simp, by simp⟩

theorem Grows.trans {P : Ev → Bool} {s t u : State} (h1 : Grows P s t) (h2 : Grows P t u) :
    Grows P s u := by
  obtain ⟨a1, b1, e1, c1, d1⟩ := h1
  obtain ⟨a2, b2, e2, c2, d2⟩ := h2
  refine ⟨a2.trans a1, b2.trans b1, e1 ++ e2, by rw [c2, c1, List.append_assoc], ?_⟩
  intro e he
  rcases List.mem_append.mp he with h | h
  · exact d1 e h
  · exact d2 e h

theorem Grows.mono {P Q : Ev → Bool} {s t : State} (hPQ : ∀ e, P e = true → Q e = true)
    (h : Grows P s t) : Grows Q s t := by
  obtain ⟨a, b, ext, c, d⟩ := h
  exact ⟨a, b, ext, c, fun e he => hPQ e (d e he)⟩

theorem Grows.log {P : Ev → Bool} {s t : State} (h : Grows P s t) (e : Ev) (he : P e = true) :
    Grows P s (t.log e) :=
  h.trans ⟨rfl, rfl, [e], rfl, by simpa using he⟩

theorem Grows.password {P : Ev → Bool} {s t : State} (h : Grows P s t) (p : List Nat) :
    Grows P s { t with password := p } :=
  h.trans ⟨rfl, rfl, [], by simp, by simp⟩

theorem Grows.attempts {P : Ev → Bool} {s t : State} (h : Grows P s t) (n : Nat) :
    Grows P s { t with attempts := n } :=
  h.trans ⟨rfl, rfl, [], by simp, by simp⟩

theorem quiet_not_paint (e : Ev) (h : e.quiet = true) : (!e.isPaint) = true := by
  simp [Ev.quiet] at h
  simp [h.1]

theorem quiet_not_arm (e : Ev) (h : e.quiet = true) : (!e.isArm) = true := by
  simp [Ev.quiet] at h
  simp [h.2]

theorem teardown_windows_grows (ws : List Window) :
    ∀ s t : State, Grows Ev.quiet s t → Grows Ev.quiet s (teardown_windows ws t) := by
  induction ws with
  | nil => intro s t h; exact h
  | cons w ws ih => intro s t h; exact ih s _ (h.log (Ev.window_teardown w.id) rfl)

theorem teardown_grows {s t : State} (h : Grows Ev.quiet s t) : Grows Ev.quiet s (teardown t) :=
  ((teardown_windows_grows t.surfaces s t h).log Ev.list_free rfl).log Ev.registry_teardown rfl

theorem zero_password_grows {P : Ev → Bool} {s t u : State} (freed : Bool) (h : Grows P s t)
    (hz : zero_password freed t = .ok u) : Grows P s u := by
  unfold zero_password at hz
  split_ifs at hz
  split at hz
  · simp at hz
  · split at hz
    · simp at hz
    · simp only [Except.ok.injEq] at hz
      rw [← hz]
      exact h.password _

theorem verify_password_grows (pam : Oracle) (s : State) :
    Grows Ev.quiet s (verify_password pam s).state := by
  have h0 : Grows Ev.quiet s { s with attempts := s.attempts + 1 } := (Grows.refl _ s).attempts _
  have h1 := h0.log
    (Ev.pam_start (pam s.attempts (read_reply function_conversation.1 s)).pam_start) rfl
  have h2 := h1.log (Ev.pam_authenticate (read_reply function_conversation.1 s)
    (pam s.attempts (read_reply function_conversation.1 s)).pam_authenticate) rfl
  have h3 := h2.log
    (Ev.pam_end (pam s.attempts (read_reply function_conversation.1 s)).pam_end) rfl
  unfold verify_password
  simp only
  split_ifs
  · exact h0
  · exact teardown_grows h1
  · exact h1
  · split
    · exact h2
    · rename_i hz
      exact zero_password_grows _ h2 hz
  · split
    · exact h3
    · rename_i hz
      exact zero_password_grows _ h3 hz
  · split
    · exact h3
    · rename_i hz
      exact zero_password_grows _ h3 hz

theorem notify_key_grows (pam : Oracle) (state sym code codepoint : Nat) (s : State) :
    Grows Ev.quiet s (notify_key pam state sym code codepoint s).state := by
  have hv := verify_password_grows pam s
  unfold notify_key
  split_ifs with h1 h2
  · split <;> rename_i heq <;> rw [heq] at hv <;> exact hv
  · split
    · exact Grows.refl _ s
    · split
      · exact Grows.refl _ s
      · split
        · exact (Grows.refl _ s).password _
        · exact (Grows.refl _ s).password _
  · exact Grows.refl _ s

theorem deliver_keys_grows (pam : Oracle) (ks : List KeyEvent) :
    ∀ s : State, Grows Ev.quiet s (deliver_keys pam ks s).state := by
  induction ks with
  | nil => intro s; exact Grows.refl _ s
  | cons k ks ih =>
    intro s
    have hk := notify_key_grows pam k.state k.sym k.code k.codepoint s
    unfold deliver_keys
    split <;> rename_i heq <;> rw [heq] at hk
    · exact hk.trans (ih _)
    · exact hk
    · exact hk

theorem wl_display_dispatch_grows (pam : Oracle) (d : Dispatch) (s : State) :
    Grows Ev.quiet s (wl_display_dispatch pam d s).state := by
  have hk := deliver_keys_grows pam d.keys s
  unfold wl_display_dispatch
  split <;> rename_i heq <;> rw [heq] at hk
  · exact hk.log _ rfl
  · exact hk
  · exact hk

/-- The announcement loop on a list of surfaces that has, at each index from
`i` on, a window whose id is its index. -/
theorem lock_surfaces_ok (n : Nat) :
    ∀ (i : Nat) (s : State), (∀ j, i ≤ j → j < i + n → ∃ w, s.surfaces[j]? = some w ∧ w.id = j) →
      lock_surfaces n i s = .ok { s with trace := (s.trace ++
        (List.range n).map (fun j => Ev.lock_set_lock_surface (i + j) (i + j))) } := by
  induction n with
  | zero => intro i s _; simp [lock_surfaces]
  | succ n ih =>
    intro i s h
    obtain ⟨w, hw, hid⟩ := h i (Nat.le_refl i) (by omega)
    have hrest : ∀ j, i + 1 ≤ j → j < i + 1 + n →
        ∃ w, (s.log (Ev.lock_set_lock_surface i w.id)).surfaces[j]? = some w ∧ w.id = j := by
      intro j h1 h2
      exact h j (by omega) (by omega)
    rw [lock_surfaces]
    simp only [hw]
    rw [ih (i + 1) (s.log (Ev.lock_set_lock_surface i w.id)) hrest, hid]
    simp [State.log, List.range_succ_eq_map, Function.comp_def, Nat.add_assoc, Nat.add_comm 1]

/-- The announcement loop appends only announcements, whatever the surfaces. -/
theorem lock_surfaces_trace (n : Nat) :
    ∀ (i : Nat) (s : State),
      ∃ ext, (∀ e ∈ ext, ∃ o w, e = Ev.lock_set_lock_surface o w ∧
          ∃ win ∈ s.surfaces, win.id = w) ∧
        ((∃ t, lock_surfaces n i s = .ok t ∧ t = { s with trace := s.trace ++ ext }) ∨
          (∃ f t, lock_surfaces n i s = .error (f, t) ∧
            t = { s with trace := s.trace ++ ext })) := by
  induction n with
  | zero => intro i s; exact ⟨[], by simp, Or.inl ⟨s, rfl, by simp⟩⟩
  | succ n ih =>
    intro i s
    rw [lock_surfaces]
    cases hw : s.surfaces[i]? with
    | none => exact ⟨[], by simp, Or.inr ⟨_, s, rfl, by simp⟩⟩
    | some w =>
      obtain ⟨ext, hext, hres⟩ := ih (i + 1) (s.log (Ev.lock_set_lock_surface i w.id))
      have hmem : w ∈ s.surfaces := List.getElem?_mem hw
      refine ⟨Ev.lock_set_lock_surface i w.id :: ext, ?_, ?_⟩
      · intro e he
        rcases List.mem_cons.mp he with rfl | he
        · exact ⟨i, w.id, rfl, w, hmem, rfl⟩
        · exact hext e he
      · rcases hres with ⟨t, ht, hteq⟩ | ⟨f, t, ht, hteq⟩
        · exact Or.inl ⟨t, ht, by rw [hteq]; simp [State.log]⟩
        · exact Or.inr ⟨f, t, ht, by rw [hteq]; simp [State.log]⟩

/-! ## The session loop -/

/-- Once `locked` is true the session loop only pumps events: it leaves
`surfaces` and `locked` alone and appends only quiet events. -/
theorem session_loop_locked (pam : Oracle) (n : Nat) (ds : List Dispatch) :
    ∀ s : State, s.locked = true → Grows Ev.quiet s (session_loop pam n ds s).state := by
  induction ds with
  | nil => intro s _; exact Grows.refl _ s
  | cons d ds ih =>
    intro s hl
    have hd := wl_display_dispatch_grows pam d s
    unfold session_loop
    split <;> rename_i heq <;> rw [heq] at hd
    · exact hd
    · exact hd
    · rename_i r s1
      have hl1 : s1.locked = true := by
        have := hd.2.1
        simp only [Step.state] at this
        rw [this, hl]
      by_cases hr : r = -1
      · simp only [hr, ne_eq, not_true_eq_false, if_false]
        exact teardown_grows hd
      · simp only [hr, ne_eq, not_false_eq_true, if_true, hl1, Bool.not_true, Bool.false_eq_true,
          if_false]
        exact hd.trans (ih s1 hl1)

/-- The first iteration of the session loop after a successful dispatch, from
a state with `locked` false and one indexed window per output: the
announcements are issued for every output in order, `locked` is written, and
the rest of the run appends only quiet events. -/
theorem session_loop_first (pam : Oracle) (n : Nat) (d : Dispatch) (ds : List Dispatch)
    (s s1 : State) (r : Int) (hl : s.locked = false) (hidx : Indexed s.surfaces)
    (hlen : s.surfaces.length = n) (hd : wl_display_dispatch pam d s = Step.ret r s1)
    (hr : r ≠ -1) :
    (session_loop pam n (d :: ds) s).state.locked = true ∧
    ∃ ext, (session_loop pam n (d :: ds) s).state.trace
        = s1.trace ++ (List.range n).map (fun i => Ev.lock_set_lock_surface i i) ++
          [Ev.locked_true] ++ ext ∧
      ∀ e ∈ ext, e.quiet = true := by
  have hg := wl_display_dispatch_grows pam d s
  rw [hd] at hg
  simp only [Step.state] at hg
  have hl1 : s1.locked = false := by rw [hg.2.1, hl]
  have hinv : ∀ j, 0 ≤ j → j < 0 + n → ∃ w, s1.surfaces[j]? = some w ∧ w.id = j := by
    intro j _ hj
    rw [hg.1]
    exact hidx j (by omega)
  have hlock := lock_surfaces_ok n 0 s1 hinv
  simp only [Nat.zero_add] at hlock
  have hrest := session_loop_locked pam n ds
    ({ ({ s1 with trace := (s1.trace ++
        (List.range n).map (fun j => Ev.lock_set_lock_surface j j)) } : State) with
      locked := true }.log Ev.locked_true) rfl
  obtain ⟨-, hlk, ext, htr, hq⟩ := hrest
  have hloop : session_loop pam n (d :: ds) s
      = session_loop pam n ds ({ ({ s1 with trace := (s1.trace ++
          (List.range n).map (fun j => Ev.lock_set_lock_surface j j)) } : State) with
        locked := true }.log Ev.locked_true) := by
    rw [session_loop]
    simp only [hd, hr, hl1, hlock, ne_eq, not_false_eq_true, if_true, Bool.not_false]
  rw [hloop]
  refine ⟨by rw [hlk]; rfl, ext, ?_, hq⟩
  rw [htr]
  simp [State.log]

/-! ## The startup: before the session loop -/

theorem Unarmed.logged {s : State} (h : Unarmed s) (e : Ev) (he : e.isArm = false) :
    Unarmed (s.log e) := by
  refine ⟨h.1, ?_⟩
  intro x hx
  simp only [State.log, List.mem_append, List.mem_singleton] at hx
  rcases hx with hx | rfl
  · exact h.2 x hx
  · exact he

theorem Unarmed.grows {s t : State} (h : Unarmed s) (hg : Grows Ev.quiet s t) : Unarmed t := by
  obtain ⟨-, hl, ext, htr, hq⟩ := hg
  refine ⟨by rw [hl, h.1], ?_⟩
  intro x hx
  rw [htr] at hx
  rcases List.mem_append.mp hx with hx | hx
  · exact h.2 x hx
  · simpa using quiet_not_arm x (hq x hx)

theorem sway_abort_unarmed {α : Type} {s : State} (h : Unarmed s) :
    Unarmed (sway_abort s : Step α).state :=
  h.grows (teardown_grows (Grows.refl _ s))

theorem parse_options_unarmed (l : List (Char × String)) :
    ∀ (o : Options) (s : State), Unarmed s → Unarmed (parse_options l o s).state := by
  induction l with
  | nil => intro o s h; exact h
  | cons x l ih =>
    intro o s h
    obtain ⟨c, optarg⟩ := x
    unfold parse_options
    split_ifs
    · exact ih _ s h
    · exact ih _ s h
    · exact ih _ s h
    · exact h.logged _ rfl
    · exact h.logged _ rfl

theorem create_surfaces_unarmed (env : Env) (os : List (Nat × Nat)) :
    ∀ (i : Nat) (s : State), Unarmed s → Unarmed (create_surfaces env os i s).state := by
  induction os with
  | nil => intro i s h; exact h
  | cons x os ih =>
    intro i s h
    obtain ⟨width, height⟩ := x
    unfold create_surfaces
    simp only
    split_ifs
    · exact ih _ _ (h.logged _ rfl)
    · exact sway_abort_unarmed (h.logged _ rfl)

theorem indexed_append (l : List Window) (hl : Indexed l) (width height : Nat) :
    Indexed (l ++ [⟨l.length, width, height⟩]) := by
  intro j hj
  by_cases h : j < l.length
  · obtain ⟨w, hw, hid⟩ := hl j h
    exact ⟨w, by rw [List.getElem?_append_left h]; exact hw, hid⟩
  · have hje : j = l.length := by
      simp at hj
      omega
    subst hje
    exact ⟨⟨l.length, width, height⟩, by simp, rfl⟩

theorem create_surfaces_indexed (env : Env) (os : List (Nat × Nat)) :
    ∀ (i : Nat) (s t : State), create_surfaces env os i s = Step.ret () t →
      s.surfaces.length = i → Indexed s.surfaces →
      Indexed t.surfaces ∧ t.surfaces.length = i + os.length := by
  induction os with
  | nil =>
    intro i s t h hlen hidx
    simp only [create_surfaces, Step.ret.injEq, true_and] at h
    subst h
    exact ⟨hidx, by simpa using hlen⟩
  | cons x os ih =>
    intro i s t h hlen hidx
    obtain ⟨width, height⟩ := x
    unfold create_surfaces at h
    simp only at h
    split_ifs at h
    · have hidx1 : Indexed ((s.log (Ev.window_setup i)).surfaces ++ [⟨i, width, height⟩]) := by
        have := indexed_append s.surfaces hidx width height
        rw [hlen] at this
        exact this
      obtain ⟨h1, h2⟩ := ih (i + 1) _ t h (by simp [State.log, hlen]) hidx1
      exact ⟨h1, by rw [h2, List.length_cons]; omega⟩
    · simp [sway_abort, sway_terminate] at h

theorem set_source_grows (mode : scaling_mode) (w : Window) (width height : ℚ) (s : State) :
    Grows (fun e => !e.isArm) s (set_source mode w width height s) := by
  cases mode
  · exact ((Grows.refl _ s).log _ rfl).log _ rfl
  · exact ((Grows.refl _ s).log _ rfl).log _ rfl
  · exact ((Grows.refl _ s).log _ rfl).log _ rfl
  · exact (Grows.refl _ s).log _ rfl
  · exact (Grows.refl _ s).log _ rfl

theorem paint_surfaces_grows (env : Env) (mode : scaling_mode) (width height : ℚ)
    (ws : List Window) :
    ∀ s : State, Grows (fun e => !e.isArm) s (paint_surfaces env mode width height ws s) := by
  induction ws with
  | nil => intro s; exact Grows.refl _ s
  | cons w ws ih =>
    intro s
    unfold paint_surfaces
    simp only
    split_ifs
    · exact (((((Grows.refl _ s).log (Ev.window_prerender w.id) rfl).trans
        (set_source_grows mode w width height _)).log (Ev.cairo_paint w.id) rfl).log
        (Ev.window_render w.id) rfl).trans (ih _)
    · exact ((Grows.refl _ s).log (Ev.window_prerender w.id) rfl).trans (ih _)

theorem mem_trace_of_grows {P : Ev → Bool} {s t : State} (h : Grows P s t) (e : Ev)
    (he : e ∈ s.trace) : e ∈ t.trace := by
  obtain ⟨-, -, ext, htr, -⟩ := h
  rw [htr]
  exact List.mem_append_left _ he

/-- The paint loop paints and presents every window whose prerender step
succeeded and that has a cairo context. -/
theorem paint_surfaces_paints (env : Env) (mode : scaling_mode) (width height : ℚ)
    (ws : List Window) :
    ∀ s : State, ∀ w ∈ ws, env.window_prerender w.id = true → env.window_cairo w.id = true →
      Ev.cairo_paint w.id ∈ (paint_surfaces env mode width height ws s).trace ∧
      Ev.window_render w.id ∈ (paint_surfaces env mode width height ws s).trace := by
  induction ws with
  | nil => intro s w hw; simp at hw
  | cons x ws ih =>
    intro s w hw hp hc
    rcases List.mem_cons.mp hw with rfl | hw
    · unfold paint_surfaces
      simp only [hp, hc, Bool.and_self, if_true]
      have hg := paint_surfaces_grows env mode width height ws
        (((set_source mode w width height (s.log (Ev.window_prerender w.id))).log
          (Ev.cairo_paint w.id)).log (Ev.window_render w.id))
      exact ⟨mem_trace_of_grows hg _ (by simp [State.log]),
        mem_trace_of_grows hg _ (by simp [State.log])⟩
    · unfold paint_surfaces
      simp only
      split_ifs
      · exact ih _ w hw hp hc
      · exact ih _ w hw hp hc

theorem Unarmed.update {s : State} (h : Unarmed s) (p : List Nat) (l : List Window) :
    Unarmed { s with password := p, surfaces := l } := ⟨h.1, h.2⟩

theorem load_image_unarmed (env : Env) (s : State) (h : Unarmed s) :
    Unarmed (load_image env s).state := by
  unfold load_image
  split_ifs
  · exact sway_abort_unarmed h
  · split
    · exact sway_abort_unarmed h
    · exact h

theorem load_image_ret (env : Env) (s t : State) (d : Nat × Nat)
    (h : load_image env s = Step.ret d t) : t = s := by
  unfold load_image at h
  split_ifs at h
  · simp [sway_abort, sway_terminate] at h
  · split at h
    · simp [sway_abort, sway_terminate] at h
    · simp only [Step.ret.injEq] at h
      exact h.2.symm

theorem parse_scaling_mode_unarmed (str : String) (s : State) (h : Unarmed s) :
    Unarmed (parse_scaling_mode str s).state := by
  unfold parse_scaling_mode
  split_ifs
  · exact h
  · exact h
  · exact h
  · exact h
  · exact h
  · exact sway_abort_unarmed h

theorem parse_scaling_mode_ret (str : String) (s t : State) (m : scaling_mode)
    (h : parse_scaling_mode str s = Step.ret m t) : t = s := by
  unfold parse_scaling_mode at h
  split_ifs at h <;> first
    | (simp only [Step.ret.injEq] at h; exact h.2.symm)
    | (simp [sway_abort, sway_terminate] at h)

theorem Unarmed.grows_not_arm {s t : State} (h : Unarmed s)
    (hg : Grows (fun e => !e.isArm) s t) : Unarmed t := by
  obtain ⟨-, hl, ext, htr, hq⟩ := hg
  refine ⟨by rw [hl, h.1], ?_⟩
  intro x hx
  rw [htr] at hx
  rcases List.mem_append.mp hx with hx | hx
  · exact h.2 x hx
  · simpa using hq x hx

/-- Whatever way the startup ends, the armament has not begun. -/
theorem startup_unarmed (env : Env) : Unarmed (startup env).state := by
  have hinit : Unarmed (⟨[], [], false, 0, []⟩ : State) := ⟨rfl, by simp⟩
  have hp := parse_options_unarmed env.getopt_long ⟨none, "fit"⟩ _ hinit
  unfold startup
  simp only
  split <;> rename_i heq <;> rw [heq] at hp
  · exact hp
  · exact hp
  · rename_i o s1
    simp only [Step.state] at hp
    have h2 := hp.update (new_password env) []
    have hc := create_surfaces_unarmed env env.outputs 0 _ h2
    split_ifs
    · exact hp
    · exact sway_abort_unarmed h2
    · split <;> rename_i heq3 <;> rw [heq3] at hc
      · exact hc
      · exact hc
      · rename_i u s3
        simp only [Step.state] at hc
        have hi := load_image_unarmed env s3 hc
        split <;> rename_i heq4 <;> rw [heq4] at hi
        · exact hi
        · exact hi
        · rename_i width height s4
          simp only [Step.state] at hi
          have hm := parse_scaling_mode_unarmed o.scaling_mode_str s4 hi
          split <;> rename_i heq5 <;> rw [heq5] at hm
          · exact hm
          · exact hm
          · rename_i mode s5
            simp only [Step.state] at hm
            exact (hm.grows_not_arm (paint_surfaces_grows env mode _ _ _ s5)).logged _ rfl

theorem guarded_of_quiet (env : Env) (e : Ev) (h : e.quiet = true) : e.guarded env = true := by
  cases e <;> simp [Ev.quiet, Ev.isPaint, Ev.guarded] at h ⊢

theorem Guarded.add_event {env : Env} {s : State} (h : Guarded env s) (e : Ev)
    (he : e.guarded env = true) : Guarded env (s.log e) := by
  intro x hx
  simp only [State.log, List.mem_append, List.mem_singleton] at hx
  rcases hx with hx | rfl
  · exact h x hx
  · exact he

theorem Guarded.of_grows {env : Env} {s t : State} (h : Guarded env s)
    (hg : Grows Ev.quiet s t) : Guarded env t := by
  obtain ⟨-, -, ext, htr, hq⟩ := hg
  intro x hx
  rw [htr] at hx
  rcases List.mem_append.mp hx with hx | hx
  · exact h x hx
  · exact guarded_of_quiet env x (hq x hx)

theorem Guarded.with_blocks {env : Env} {s : State} (h : Guarded env s) (p : List Nat)
    (l : List Window) : Guarded env { s with password := p, surfaces := l } := h

theorem sway_abort_guarded {α : Type} {env : Env} {s : State} (h : Guarded env s) :
    Guarded env (sway_abort s : Step α).state :=
  h.of_grows (teardown_grows (Grows.refl _ s))

theorem parse_options_guarded (env : Env) (l : List (Char × String)) :
    ∀ (o : Options) (s : State), Guarded env s → Guarded env (parse_options l o s).state := by
  induction l with
  | nil => intro o s h; exact h
  | cons x l ih =>
    intro o s h
    obtain ⟨c, optarg⟩ := x
    unfold parse_options
    split_ifs
    · exact ih _ s h
    · exact ih _ s h
    · exact ih _ s h
    · exact h.add_event Ev.version_printed rfl
    · exact h.add_event Ev.usage_printed rfl

theorem create_surfaces_guarded (env : Env) (os : List (Nat × Nat)) :
    ∀ (i : Nat) (s : State), Guarded env s → Guarded env (create_surfaces env os i s).state := by
  induction os with
  | nil => intro i s h; exact h
  | cons x os ih =>
    intro i s h
    obtain ⟨width, height⟩ := x
    unfold create_surfaces
    simp only
    split_ifs
    · exact ih _ _ (h.add_event (Ev.window_setup i) rfl)
    · exact sway_abort_guarded (h.add_event (Ev.window_setup i) rfl)

theorem load_image_guarded (env : Env) (s : State) (h : Guarded env s) :
    Guarded env (load_image env s).state := by
  unfold load_image
  split_ifs
  · exact sway_abort_guarded h
  · split
    · exact sway_abort_guarded h
    · exact h

theorem parse_scaling_mode_guarded (env : Env) (str : String) (s : State) (h : Guarded env s) :
    Guarded env (parse_scaling_mode str s).state := by
  unfold parse_scaling_mode
  split_ifs
  · exact h
  · exact h
  · exact h
  · exact h
  · exact h
  · exact sway_abort_guarded h

theorem set_source_guarded (env : Env) (mode : scaling_mode) (w : Window) (width height : ℚ)
    (s : State) (h : Guarded env s) : Guarded env (set_source mode w width height s) := by
  cases mode
  · exact (h.add_event (Ev.cairo_scale _ _ _) rfl).add_event (Ev.cairo_set_source_surface _ _ _) rfl
  · exact (h.add_event (Ev.cairo_scale _ _ _) rfl).add_event (Ev.cairo_set_source_surface _ _ _) rfl
  · exact (h.add_event (Ev.cairo_scale _ _ _) rfl).add_event (Ev.cairo_set_source_surface _ _ _) rfl
  · exact h.add_event (Ev.cairo_set_source_surface _ _ _) rfl
  · exact h.add_event (Ev.cairo_set_source _) rfl

/-- The paint loop paints and presents only windows whose prerender step
succeeded and that have a cairo context. -/
theorem paint_surfaces_guarded (env : Env) (mode : scaling_mode) (width height : ℚ)
    (ws : List Window) :
    ∀ s : State, Guarded env s → Guarded env (paint_surfaces env mode width height ws s) := by
  induction ws with
  | nil => intro s h; exact h
  | cons w ws ih =>
    intro s h
    unfold paint_surfaces
    simp only
    split_ifs with hguard
    · exact ih _ (((set_source_guarded env mode w width height _
        (h.add_event (Ev.window_prerender w.id) rfl)).add_event (Ev.cairo_paint w.id) hguard).add_event
        (Ev.window_render w.id) hguard)
    · exact ih _ (h.add_event (Ev.window_prerender w.id) rfl)

/-- Whatever way the startup ends, every paint or present call it made was
guarded. -/
theorem startup_guarded (env : Env) : Guarded env (startup env).state := by
  have hinit : Guarded env (⟨[], [], false, 0, []⟩ : State) := by
    intro e he
    simp at he
  have hp := parse_options_guarded env env.getopt_long ⟨none, "fit"⟩ _ hinit
  unfold startup
  simp only
  split <;> rename_i heq <;> rw [heq] at hp
  · exact hp
  · exact hp
  · rename_i o s1
    simp only [Step.state] at hp
    have h2 := hp.with_blocks (new_password env) []
    have hc := create_surfaces_guarded env env.outputs 0 _ h2
    split_ifs
    · exact hp
    · exact sway_abort_guarded h2
    · split <;> rename_i heq3 <;> rw [heq3] at hc
      · exact hc
      · exact hc
      · rename_i u s3
        simp only [Step.state] at hc
        have hi := load_image_guarded env s3 hc
        split <;> rename_i heq4 <;> rw [heq4] at hi
        · exact hi
        · exact hi
        · rename_i width height s4
          simp only [Step.state] at hi
          have hm := parse_scaling_mode_guarded env o.scaling_mode_str s4 hi
          split <;> rename_i heq5 <;> rw [heq5] at hm
          · exact hm
          · exact hm
          · rename_i mode s5
            simp only [Step.state] at hm
            exact (paint_surfaces_guarded env mode _ _ _ s5 hm).add_event
              Ev.cairo_surface_destroy rfl

/-- A startup that reaches the session loop leaves one indexed window per
output, and has painted and presented every window whose prerender step
succeeded and that has a cairo context. -/
theorem startup_ret (env : Env) (s0 : State) (h : startup env = Step.ret () s0) :
    Indexed s0.surfaces ∧ s0.surfaces.length = env.outputs.length ∧
    ∀ i, i < env.outputs.length → env.window_prerender i = true → env.window_cairo i = true →
      Ev.cairo_paint i ∈ s0.trace ∧ Ev.window_render i ∈ s0.trace := by
  unfold startup at h
  simp only at h
  split at h
  · simp at h
  · simp at h
  · rename_i o s1 heq
    split_ifs at h
    · simp [sway_abort, sway_terminate] at h
    · split at h
      · simp at h
      · simp at h
      · rename_i u s3 heq3
        obtain ⟨hidx, hlen⟩ := create_surfaces_indexed env env.outputs 0 _ s3 heq3 rfl
          (by intro j hj; simp at hj)
        split at h
        · simp at h
        · simp at h
        · rename_i width height s4 heq4
          have e4 := load_image_ret env s3 s4 _ heq4
          split at h
          · simp at h
          · simp at h
          · rename_i mode s5 heq5
            have e5 := parse_scaling_mode_ret _ s4 s5 mode heq5
            simp only [Step.ret.injEq, true_and] at h
            have hs5 : s5.surfaces = s3.surfaces := by rw [e5, e4]
            have hg := paint_surfaces_grows env mode width height s5.surfaces s5
            have hsurf : s0.surfaces = s3.surfaces := by
              rw [← h]
              simp only [State.log]
              rw [hg.1, hs5]
            refine ⟨by rw [hsurf]; exact hidx, by rw [hsurf, hlen]; simp, ?_⟩
            intro i hi hp hc
            obtain ⟨w, hw, hid⟩ := hidx i (by rw [hlen]; simpa using hi)
            have hmem : w ∈ s5.surfaces := by
              rw [hs5]
              exact List.getElem?_mem hw
            have hpaint := paint_surfaces_paints env mode width height s5.surfaces s5 w hmem
              (by rw [hid]; exact hp) (by rw [hid]; exact hc)
            rw [hid] at hpaint
            rw [← h]
            simp only [State.log, List.mem_append, List.mem_singleton]
            exact ⟨Or.inl hpaint.1, Or.inl hpaint.2⟩

/-! ## Exit codes -/

theorem zero_password_trace {freed : Bool} {s t : State} (h : zero_password freed s = .ok t) :
    t.trace = s.trace := by
  unfold zero_password at h
  split_ifs at h
  split at h
  · simp at h
  · split at h
    · simp at h
    · simp only [Except.ok.injEq] at h
      rw [← h]

/-- The calls that end the process inside `verify_password` end it with
`EXIT_FAILURE`; a true verdict is returned right after a successful
`pam_end`. -/
theorem verify_password_outcome (pam : Oracle) (s : State) :
    (∀ c t, verify_password pam s = Step.exit c t → c = EXIT_FAILURE) ∧
    (∀ t, verify_password pam s = Step.ret true t →
      ∃ pre, t.trace = pre ++ [Ev.pam_end PAM_SUCCESS]) := by
  unfold verify_password
  simp only
  split_ifs with h0 h1 hc h2 h3
  · exact ⟨fun c t h => by simp at h, fun t h => by simp at h⟩
  · exact ⟨fun c t h => by simp [sway_abort, sway_terminate] at h; exact h.1.symm,
      fun t h => by simp [sway_abort, sway_terminate] at h⟩
  · exact ⟨fun c t h => by simp at h, fun t h => by simp at h⟩
  · split
    · exact ⟨fun c t h => by simp at h, fun t h => by simp at h⟩
    · exact ⟨fun c t h => by simp at h, fun t h => by simp at h⟩
  · split
    · exact ⟨fun c t h => by simp at h, fun t h => by simp at h⟩
    · exact ⟨fun c t h => by simp at h, fun t h => by simp at h⟩
  · split
    · exact ⟨fun c t h => by simp at h, fun t h => by simp at h⟩
    · rename_i s4 hz
      refine ⟨fun c t h => by simp at h, fun t h => ?_⟩
      simp only [Step.ret.injEq, true_and] at h
      rw [← h, zero_password_trace hz]
      simp only [not_not] at h3
      rw [h3]
      exact ⟨_, rfl⟩

theorem notify_key_exit (pam : Oracle) (state sym code codepoint : Nat) (s t : State) (c : Nat)
    (h : notify_key pam state sym code codepoint s = Step.exit c t) : ExitOk c t := by
  have hv := verify_password_outcome pam s
  unfold notify_key at h
  split_ifs at h
  · split at h
    · rename_i s1 heq
      simp only [Step.exit.injEq] at h
      obtain ⟨pre, hpre⟩ := hv.2 s1 heq
      exact Or.inr ⟨h.1.symm, pre, by rw [← h.2]; exact hpre⟩
    · simp at h
    · rename_i c1 s1 heq
      simp only [Step.exit.injEq] at h
      exact Or.inl (by rw [← h.1]; exact hv.1 c1 s1 heq)
    · simp at h
  · split at h
    · simp at h
    · split at h
      · simp at h
      · split at h
        · simp at h
        · simp at h

theorem deliver_keys_exit (pam : Oracle) (ks : List KeyEvent) :
    ∀ (s t : State) (c : Nat), deliver_keys pam ks s = Step.exit c t → ExitOk c t := by
  induction ks with
  | nil => intro s t c h; simp [deliver_keys] at h
  | cons k ks ih =>
    intro s t c h
    unfold deliver_keys at h
    split at h
    · exact ih _ t c h
    · rename_i c1 s1 heq
      simp only [Step.exit.injEq] at h
      rw [← h.1, ← h.2]
      exact notify_key_exit pam _ _ _ _ s s1 c1 heq
    · simp at h

theorem wl_display_dispatch_exit (pam : Oracle) (d : Dispatch) (s t : State) (c : Nat)
    (h : wl_display_dispatch pam d s = Step.exit c t) : ExitOk c t := by
  unfold wl_display_dispatch at h
  split at h
  · simp at h
  · rename_i c1 s1 heq
    simp only [Step.exit.injEq] at h
    rw [← h.1, ← h.2]
    exact deliver_keys_exit pam d.keys s s1 c1 heq
  · simp at h

theorem wl_display_dispatch_ret (pam : Oracle) (d : Dispatch) (s t : State) (r : Int)
    (h : wl_display_dispatch pam d s = Step.ret r t) : r = d.result := by
  unfold wl_display_dispatch at h
  split at h
  · simp only [Step.ret.injEq] at h
    exact h.1.symm
  · simp at h
  · simp at h

theorem teardown_last (s : State) : ∃ pre, (teardown s).trace = pre ++ [Ev.registry_teardown] :=
  ⟨_, rfl⟩

/-- The session loop ends the process with `EXIT_FAILURE`, or with 0 right
after a successful `pam_end`, or with 0 after the teardown that follows a
dispatch with result -1. -/
theorem session_loop_exit (pam : Oracle) (n : Nat) (ds : List Dispatch) :
    ∀ (s t : State) (c : Nat), session_loop pam n ds s = Run.exited c t →
      ExitOk c t ∨ (c = 0 ∧ (∃ d ∈ ds, d.result = -1) ∧
        ∃ pre, t.trace = pre ++ [Ev.registry_teardown]) := by
  induction ds with
  | nil => intro s t c h; simp [session_loop] at h
  | cons d ds ih =>
    intro s t c h
    have lift : ∀ u : State, (ExitOk c t ∨ (c = 0 ∧ (∃ x ∈ ds, x.result = -1) ∧
        ∃ pre, t.trace = pre ++ [Ev.registry_teardown])) →
        (ExitOk c t ∨ (c = 0 ∧ (∃ x ∈ d :: ds, x.result = -1) ∧
        ∃ pre, t.trace = pre ++ [Ev.registry_teardown])) := by
      intro _ hh
      rcases hh with hh | ⟨hc, ⟨x, hx, hr⟩, hp⟩
      · exact Or.inl hh
      · exact Or.inr ⟨hc, ⟨x, List.mem_cons_of_mem _ hx, hr⟩, hp⟩
    unfold session_loop at h
    split at h
    · rename_i c1 s1 heq
      simp only [Run.exited.injEq] at h
      rw [← h.1, ← h.2]
      exact Or.inl (wl_display_dispatch_exit pam d s s1 c1 heq)
    · simp at h
    · rename_i r s1 heq
      have hres := wl_display_dispatch_ret pam d s s1 r heq
      split_ifs at h with hr hl
      · split at h
        · simp at h
        · exact lift s (ih _ t c h)
      · exact lift s (ih _ t c h)
      · simp only [Run.exited.injEq] at h
        simp only [ne_eq, not_not] at hr
        refine Or.inr ⟨h.1.symm, ⟨d, List.mem_cons_self _ _, by rw [← hres, hr]⟩, ?_⟩
        rw [← h.2]
        exact teardown_last s1

theorem parse_options_exit (l : List (Char × String)) :
    ∀ (o : Options) (s t : State) (c : Nat), parse_options l o s = Step.exit c t →
      c = EXIT_FAILURE ∨ (c = 0 ∧ t = s.log Ev.version_printed) := by
  induction l with
  | nil => intro o s t c h; simp [parse_options] at h
  | cons x l ih =>
    intro o s t c h
    obtain ⟨ch, optarg⟩ := x
    unfold parse_options at h
    split_ifs at h
    · exact ih _ s t c h
    · exact ih _ s t c h
    · exact ih _ s t c h
    · simp only [Step.exit.injEq] at h
      exact Or.inr ⟨h.1.symm, h.2.symm⟩
    · simp only [Step.exit.injEq] at h
      exact Or.inl h.1.symm

theorem parse_options_ret (l : List (Char × String)) :
    ∀ (o o1 : Options) (s t : State), parse_options l o s = Step.ret o1 t → t = s := by
  induction l with
  | nil =>
    intro o o1 s t h
    simp only [parse_options, Step.ret.injEq] at h
    exact h.2.symm
  | cons x l ih =>
    intro o o1 s t h
    obtain ⟨ch, optarg⟩ := x
    unfold parse_options at h
    split_ifs at h
    · exact ih _ o1 s t h
    · exact ih _ o1 s t h
    · exact ih _ o1 s t h

theorem create_surfaces_exit (env : Env) (os : List (Nat × Nat)) :
    ∀ (i : Nat) (s t : State) (c : Nat), create_surfaces env os i s = Step.exit c t →
      c = EXIT_FAILURE := by
  induction os with
  | nil => intro i s t c h; simp [create_surfaces] at h
  | cons x os ih =>
    intro i s t c h
    obtain ⟨width, height⟩ := x
    unfold create_surfaces at h
    simp only at h
    split_ifs at h
    · exact ih _ _ t c h
    · simp only [sway_abort, sway_terminate, Step.exit.injEq] at h
      exact h.1.symm

theorem load_image_exit (env : Env) (s t : State) (c : Nat)
    (h : load_image env s = Step.exit c t) : c = EXIT_FAILURE := by
  unfold load_image at h
  split_ifs at h
  · simp only [sway_abort, sway_terminate, Step.exit.injEq] at h
    exact h.1.symm
  · split at h
    · simp only [sway_abort, sway_terminate, Step.exit.injEq] at h
      exact h.1.symm
    · simp at h

theorem parse_scaling_mode_exit (str : String) (s t : State) (c : Nat)
    (h : parse_scaling_mode str s = Step.exit c t) : c = EXIT_FAILURE := by
  unfold parse_scaling_mode at h
  split_ifs at h
  simp only [sway_abort, sway_terminate, Step.exit.injEq] at h
  exact h.1.symm

/-- The startup ends the process with `EXIT_FAILURE`, except for the version
option, which ends it with 0 after printing the version. -/
theorem startup_exit (env : Env) (t : State) (c : Nat) (h : startup env = Step.exit c t) :
    c = EXIT_FAILURE ∨ (c = 0 ∧ t.trace = [Ev.version_printed]) := by
  unfold startup at h
  simp only at h
  split at h
  · rename_i c1 s1 heq
    simp only [Step.exit.injEq] at h
    rcases parse_options_exit _ _ _ s1 c1 heq with hc | ⟨hc, hs⟩
    · exact Or.inl (by rw [← h.1]; exact hc)
    · exact Or.inr ⟨by rw [← h.1]; exact hc, by rw [← h.2, hs]; rfl⟩
  · simp at h
  · rename_i o s1 heq
    split_ifs at h
    · simp only [Step.exit.injEq] at h
      exact Or.inl h.1.symm
    · simp only [sway_abort, sway_terminate, Step.exit.injEq] at h
      exact Or.inl h.1.symm
    · split at h
      · rename_i c3 s3 heq3
        simp only [Step.exit.injEq] at h
        exact Or.inl (by rw [← h.1]; exact create_surfaces_exit env _ _ _ s3 c3 heq3)
      · simp at h
      · split at h
        · rename_i c4 s4 heq4
          simp only [Step.exit.injEq] at h
          exact Or.inl (by rw [← h.1]; exact load_image_exit env _ s4 c4 heq4)
        · simp at h
        · split at h
          · rename_i c5 s5 heq5
            simp only [Step.exit.injEq] at h
            exact Or.inl (by rw [← h.1]; exact parse_scaling_mode_exit _ _ s5 c5 heq5)
          · simp at h
          · simp at h

theorem main_disconnect :
    main disconnect_env = Run.exited 0 ⟨new_password disconnect_env, [], false, 0,
      [Ev.cairo_surface_destroy, Ev.wl_display_dispatch (-1), Ev.list_free,
        Ev.registry_teardown]⟩ := by
  have hd : ∀ s : State, wl_display_dispatch disconnect_env.pam ⟨[], -1⟩ s
      = Step.ret (-1) (s.log (Ev.wl_display_dispatch (-1))) := fun _ => rfl
  have hloop : ∀ s : State, session_loop disconnect_env.pam disconnect_env.outputs.length
      disconnect_env.events s = Run.exited 0 (teardown (s.log (Ev.wl_display_dispatch (-1)))) := by
    intro s
    show session_loop _ _ [⟨[], -1⟩] s = _
    simp only [session_loop, hd, ne_eq, not_true_eq_false, if_false]
  have ht : ∀ (p : List Nat) (tr : List Ev), teardown ⟨p, [], false, 0, tr⟩
      = ⟨p, [], false, 0, tr ++ [Ev.list_free] ++ [Ev.registry_teardown]⟩ := fun _ _ => rfl
  rw [main_of_startup disconnect_env _
    (startup_no_outputs disconnect_env "background.png" (1, 1) rfl rfl rfl rfl rfl), hloop]
  simp only [State.log, ht, List.cons_append, List.nil_append, List.singleton_append]

/-- C4, as amended (exit codes).  A run ends with exit code 0 only in three
ways: the version option was given; or the key handler called `exit(0)` right
after the authentication gate returned an accepted verdict (the last call of
the trace is a successful `pam_end`); or `wl_display_dispatch` returned -1,
after which the session loop ends, `main` tears down and returns 0.  So a
connection failure of the event source, in whatever iteration, ends the
process with exit code 0.  Every other exit carries `EXIT_FAILURE`, which is
not 0. -/
theorem exit_code_zero_cases (env : Env) :
    (∀ t, main env = Run.exited 0 t →
      t.trace = [Ev.version_printed] ∨
      (∃ pre, t.trace = pre ++ [Ev.pam_end PAM_SUCCESS]) ∨
      ((∃ d ∈ env.events, d.result = -1) ∧ ∃ pre, t.trace = pre ++ [Ev.registry_teardown])) ∧
    (∀ (n : Nat) (s s1 : State) (d : Dispatch) (ds : List Dispatch),
      wl_display_dispatch env.pam d s = Step.ret (-1) s1 →
      session_loop env.pam n (d :: ds) s = Run.exited 0 (teardown s1)) ∧
    (∀ c t, main env = Run.exited c t → c = 0 ∨ c = EXIT_FAILURE) ∧ EXIT_FAILURE ≠ 0 := by
  have hmain : ∀ c t, main env = Run.exited c t →
      (c = EXIT_FAILURE ∨ (c = 0 ∧ t.trace = [Ev.version_printed])) ∨
      (ExitOk c t ∨ (c = 0 ∧ (∃ d ∈ env.events, d.result = -1) ∧
        ∃ pre, t.trace = pre ++ [Ev.registry_teardown])) := by
    intro c t h
    unfold main at h
    split at h
    · rename_i c1 s1 heq
      simp only [Run.exited.injEq] at h
      rw [← h.1, ← h.2]
      exact Or.inl (startup_exit env s1 c1 heq)
    · simp at h
    · exact Or.inr (session_loop_exit env.pam _ env.events _ t c h)
  refine ⟨?_, ?_, ?_, by decide⟩
  · intro t h
    rcases hmain 0 t h with (hc | ⟨-, hv⟩) | (hc | ⟨-, hpam⟩) | ⟨-, hd, hp⟩
    · exact absurd hc (by decide)
    · exact Or.inl hv
    · exact absurd hc (by decide)
    · exact Or.inr (Or.inl hpam)
    · exact Or.inr (Or.inr ⟨hd, hp⟩)
  · intro n s s1 d ds h
    simp only [session_loop, h, ne_eq, not_true_eq_false, if_false]
  · intro c t h
    rcases hmain c t h with (hc | ⟨hc, -⟩) | (hc | ⟨hc, -⟩) | ⟨hc, -⟩
    · exact Or.inr hc
    · exact Or.inl hc
    · exact Or.inr hc
    · exact Or.inl hc
    · exact Or.inl hc

/-- Witness of C4 as amended: the run `disconnect_env`. -/
theorem exit_code_zero_cases_witness :
    main disconnect_env = Run.exited 0 ⟨new_password disconnect_env, [], false, 0,
      [Ev.cairo_surface_destroy, Ev.wl_display_dispatch (-1), Ev.list_free,
        Ev.registry_teardown]⟩ ∧
    ([Ev.cairo_surface_destroy, Ev.wl_display_dispatch (-1), Ev.list_free,
        Ev.registry_teardown] = [Ev.version_printed] ∨
      (∃ pre, [Ev.cairo_surface_destroy, Ev.wl_display_dispatch (-1), Ev.list_free,
        Ev.registry_teardown] = pre ++ [Ev.pam_end PAM_SUCCESS]) ∨
      ((∃ d ∈ disconnect_env.events, d.result = -1) ∧
        ∃ pre, [Ev.cairo_surface_destroy, Ev.wl_display_dispatch (-1), Ev.list_free,
          Ev.registry_teardown] = pre ++ [Ev.registry_teardown])) :=
  ⟨main_disconnect, (exit_code_zero_cases disconnect_env).1 _ main_disconnect⟩

/-- Counterexample of C4 as stated.  In the run `disconnect_env` the first
`wl_display_dispatch` returns -1; the process ends with exit code 0, although
no PAM transaction was ever started (no attempt, no PAM call in the trace). -/
theorem exit_code_zero_on_disconnect_counterexample :
    (main disconnect_env).exitCode = some 0 ∧
    (main disconnect_env).state.attempts = 0 ∧
    (main disconnect_env).state.trace = [Ev.cairo_surface_destroy, Ev.wl_display_dispatch (-1),
      Ev.list_free, Ev.registry_teardown] ∧
    disconnect_env.events = [⟨[], -1⟩] := by
  rw [main_disconnect]
  exact ⟨rfl, rfl, rfl, rfl⟩

/-! ## The armament -/

theorem count_announcements (n i w : Nat) :
    ((List.range n).map (fun j => Ev.lock_set_lock_surface j j)).count
      (Ev.lock_set_lock_surface i w) = if i < n ∧ w = i then 1 else 0 := by
  induction n with
  | zero => simp
  | succ n ih =>
    rw [List.range_succ, List.map_append, List.count_append, ih]
    by_cases h1 : i < n ∧ w = i
    · have h2 : ¬ n = i := by omega
      have h3 : i < n + 1 ∧ w = i := ⟨by omega, h1.2⟩
      simp [h1, h2, h3, List.count_cons]
    · by_cases h2 : n = i ∧ n = w
      · have h3 : i < n + 1 ∧ w = i := by omega
        simp [h1, h2, h3, List.count_cons]
      · have h3 : ¬ (i < n + 1 ∧ w = i) := by omega
        simp [h1, h2, h3, List.count_cons]

theorem count_locked_announcements (n : Nat) :
    ((List.range n).map (fun j => Ev.lock_set_lock_surface j j)).count Ev.locked_true = 0 := by
  apply List.count_eq_zero_of_not_mem
  simp

theorem count_zero_of_not_arm (l : List Ev) (e : Ev) (he : e.isArm = true)
    (hl : ∀ x ∈ l, x.isArm = false) : l.count e = 0 := by
  apply List.count_eq_zero_of_not_mem
  intro hmem
  have := hl e hmem
  rw [he] at this
  exact absurd this (by decide)

theorem not_arm_of_quiet (l : List Ev) (hl : ∀ x ∈ l, x.quiet = true) :
    ∀ x ∈ l, x.isArm = false := by
  intro x hx
  simpa using quiet_not_arm x (hl x hx)

theorem not_paint_of_quiet (l : List Ev) (hl : ∀ x ∈ l, x.quiet = true) :
    ∀ x ∈ l, x.isPaint = false := by
  intro x hx
  simpa using quiet_not_paint x (hl x hx)

/-- C6 (single armament).  In every run that reaches the session loop and
whose first `wl_display_dispatch` returns a value other than -1, however long
the stream of later dispatches: `locked` is false before the loop and after the
first dispatch; the first iteration issues the announcements for all outputs,
in order, each for the window of that output, and then writes `locked`; all
that the rest of the run appends to the trace is neither an announcement, nor a
write of `locked`, nor a paint or present call; `locked` is true at the end of
the run; the trace of the whole run holds exactly one write of `locked` and
exactly one announcement for each output. -/
theorem single_armament (env : Env) (s0 s1 : State) (d : Dispatch) (ds : List Dispatch)
    (r : Int) (hstart : startup env = Step.ret () s0) (hev : env.events = d :: ds)
    (hd : wl_display_dispatch env.pam d s0 = Step.ret r s1) (hr : r ≠ -1) :
    s0.locked = false ∧ s1.locked = false ∧
    (main env).state.locked = true ∧
    (∃ ext, (main env).state.trace
        = s1.trace ++ (List.range env.outputs.length).map (fun i => Ev.lock_set_lock_surface i i)
          ++ [Ev.locked_true] ++ ext ∧
      ∀ e ∈ ext, e.quiet = true) ∧
    (main env).state.trace.count Ev.locked_true = 1 ∧
    (∀ i w, (main env).state.trace.count (Ev.lock_set_lock_surface i w)
      = if i < env.outputs.length ∧ w = i then 1 else 0) := by
  have hun : Unarmed s0 := by
    have := startup_unarmed env
    rw [hstart] at this
    exact this
  obtain ⟨hidx, hlen, -⟩ := startup_ret env s0 hstart
  have hg := wl_display_dispatch_grows env.pam d s0
  rw [hd] at hg
  simp only [Step.state] at hg
  have hun1 : Unarmed s1 := hun.grows hg
  obtain ⟨hlk, ext, htr, hq⟩ :=
    session_loop_first env.pam env.outputs.length d ds s0 s1 r hun.1 hidx hlen hd hr
  rw [main_of_startup env s0 hstart, hev]
  refine ⟨hun.1, hun1.1, hlk, ⟨ext, htr, hq⟩, ?_, ?_⟩
  · rw [htr]
    simp only [List.count_append]
    rw [count_zero_of_not_arm s1.trace Ev.locked_true rfl hun1.2,
      count_zero_of_not_arm ext Ev.locked_true rfl (not_arm_of_quiet ext hq),
      count_locked_announcements]
    simp
  · intro i w
    rw [htr]
    simp only [List.count_append]
    rw [count_zero_of_not_arm s1.trace (Ev.lock_set_lock_surface i w) rfl hun1.2,
      count_zero_of_not_arm ext (Ev.lock_set_lock_surface i w) rfl (not_arm_of_quiet ext hq),
      count_announcements]
    simp

theorem startup_armed_env :
    startup armed_env = Step.ret () ⟨new_password armed_env,
      [⟨0, 1920, 1080⟩, ⟨1, 1280, 1024⟩], false, 0,
      [Ev.window_setup 0, Ev.window_setup 1,
        Ev.window_prerender 0, Ev.cairo_set_source 0, Ev.cairo_paint 0, Ev.window_render 0,
        Ev.window_prerender 1, Ev.cairo_set_source 1, Ev.cairo_paint 1, Ev.window_render 1,
        Ev.cairo_surface_destroy]⟩ := by
  simp [startup, parse_options, create_surfaces, load_image, parse_scaling_mode, paint_surfaces,
    set_source, State.log, armed_env]

/-- Witness of C6: the run `armed_env`. -/
theorem single_armament_witness :
    (main armed_env).state.locked = true ∧
    (main armed_env).state.trace.count Ev.locked_true = 1 ∧
    (∀ i w, (main armed_env).state.trace.count (Ev.lock_set_lock_surface i w)
      = if i < armed_env.outputs.length ∧ w = i then 1 else 0) :=
  have h := single_armament armed_env _
    ((⟨new_password armed_env, [⟨0, 1920, 1080⟩, ⟨1, 1280, 1024⟩], false, 0,
      [Ev.window_setup 0, Ev.window_setup 1,
        Ev.window_prerender 0, Ev.cairo_set_source 0, Ev.cairo_paint 0, Ev.window_render 0,
        Ev.window_prerender 1, Ev.cairo_set_source 1, Ev.cairo_paint 1, Ev.window_render 1,
        Ev.cairo_surface_destroy]⟩ : State).log (Ev.wl_display_dispatch 1))
    ⟨[], 1⟩ [⟨[⟨WL_KEYBOARD_KEY_STATE_PRESSED, 97, 38, 97⟩], 1⟩] 1
    startup_armed_env rfl rfl (by decide)
  ⟨h.2.2.1, h.2.2.2.2.1, h.2.2.2.2.2⟩

theorem append_split {α : Type} (l1 l2 pre post : List α) (e : α)
    (h : l1 ++ l2 = pre ++ e :: post) :
    e ∈ l1 ∨ ∃ m, pre = l1 ++ m ∧ l2 = m ++ e :: post := by
  rcases List.append_eq_append_iff.mp h with ⟨a, ha, hb⟩ | ⟨c, hc, hd⟩
  · exact Or.inr ⟨a, ha, hb⟩
  · cases c with
    | nil =>
      refine Or.inr ⟨[], ?_, ?_⟩
      · simpa using hc.symm
      · simpa using hd.symm
    | cons x c =>
      simp only [List.cons_append, List.cons.injEq] at hd
      left
      rw [hc, hd.1]
      simp

/-- The shape of the trace of a run: the events of the startup, then quiet
events, then nothing or the whole armament (an announcement per output, in
order, and the write of `locked`), then quiet events.  Every paint or present
call of the startup is guarded.  When the armament is
there, every window whose prerender step succeeded and that has a cairo
context was painted and presented in the startup. -/
theorem main_trace_shape (env : Env) :
    ∃ t0 q1 A q2, (main env).state.trace = t0 ++ q1 ++ A ++ q2 ∧
      (∀ e ∈ t0, e.isArm = false ∧ e.guarded env = true) ∧ (∀ e ∈ q1, e.quiet = true) ∧ (∀ e ∈ q2, e.quiet = true) ∧
      (A = [] ∨
        (A = (List.range env.outputs.length).map (fun i => Ev.lock_set_lock_surface i i)
            ++ [Ev.locked_true] ∧
          ∀ i, i < env.outputs.length → env.window_prerender i = true →
            env.window_cairo i = true → Ev.cairo_paint i ∈ t0 ∧ Ev.window_render i ∈ t0)) := by
  have hun := startup_unarmed env
  have hgd := startup_guarded env
  cases hs : startup env with
  | exit c s =>
    rw [hs] at hun hgd
    refine ⟨s.trace, [], [], [], ?_, fun e he => ⟨hun.2 e he, hgd e he⟩, by simp, by simp, Or.inl rfl⟩
    simp [main, hs, Run.state]
  | fault f s =>
    rw [hs] at hun hgd
    refine ⟨s.trace, [], [], [], ?_, fun e he => ⟨hun.2 e he, hgd e he⟩, by simp, by simp, Or.inl rfl⟩
    simp [main, hs, Run.state]
  | ret u s0 =>
    rw [hs] at hun hgd
    simp only [Step.state] at hun hgd
    obtain ⟨hidx, hlen, hpaint⟩ := startup_ret env s0 hs
    rw [main_of_startup env s0 hs]
    cases hev : env.events with
    | nil =>
      refine ⟨s0.trace, [], [], [], ?_, fun e he => ⟨hun.2 e he, hgd e he⟩, by simp, by simp, Or.inl rfl⟩
      simp [session_loop, Run.state]
    | cons d ds =>
      have hg := wl_display_dispatch_grows env.pam d s0
      cases hd : wl_display_dispatch env.pam d s0 with
      | exit c s1 =>
        rw [hd] at hg
        obtain ⟨-, -, ext, htr, hq⟩ := hg
        refine ⟨s0.trace, ext, [], [], ?_, fun e he => ⟨hun.2 e he, hgd e he⟩, hq, by simp, Or.inl rfl⟩
        simp only [session_loop, hd, Run.state, List.append_nil]
        exact htr
      | fault f s1 =>
        rw [hd] at hg
        obtain ⟨-, -, ext, htr, hq⟩ := hg
        refine ⟨s0.trace, ext, [], [], ?_, fun e he => ⟨hun.2 e he, hgd e he⟩, hq, by simp, Or.inl rfl⟩
        simp only [session_loop, hd, Run.state, List.append_nil]
        exact htr
      | ret r s1 =>
        rw [hd] at hg
        simp only [Step.state] at hg
        by_cases hr : r = -1
        · obtain ⟨-, -, ext, htr, hq⟩ := teardown_grows hg
          refine ⟨s0.trace, ext, [], [], ?_, fun e he => ⟨hun.2 e he, hgd e he⟩, hq, by simp, Or.inl rfl⟩
          simp only [session_loop, hd, hr, ne_eq, not_true_eq_false, if_false, Run.state,
            List.append_nil]
          exact htr
        · obtain ⟨-, ext, htr, hq⟩ :=
            session_loop_first env.pam env.outputs.length d ds s0 s1 r hun.1 hidx hlen hd hr
          obtain ⟨-, -, q1, htr1, hq1⟩ := hg
          refine ⟨s0.trace, q1, _, ext, ?_, fun e he => ⟨hun.2 e he, hgd e he⟩, hq1, hq, Or.inr ⟨rfl, hpaint⟩⟩
          rw [htr, htr1]
          simp

/-- C5, as amended (armament ordering).  In every run of `main`, for every
number of outputs and every outcome of the prerender steps: no paint or
present call (`cairo_paint`, `window_render`) follows an announcement or the
write of `locked`; every announcement names an output and the window of that
output; for every output whose prerender step succeeded and whose window has a
cairo context, the `cairo_paint` and `window_render` calls for its window
precede the announcement for that output; a window whose prerender step failed
or that has no cairo context is never painted nor presented; and once the
first dispatch has succeeded every output is announced, painted or not. -/
theorem armament_after_paint (env : Env) :
    (∀ pre post e, (main env).state.trace = pre ++ e :: post → e.isArm = true →
      ∀ x ∈ post, x.isPaint = false) ∧
    (∀ i w pre post, (main env).state.trace = pre ++ Ev.lock_set_lock_surface i w :: post →
      w = i ∧ i < env.outputs.length ∧
      (env.window_prerender i = true → env.window_cairo i = true →
        Ev.cairo_paint i ∈ pre ∧ Ev.window_render i ∈ pre)) ∧
    (∀ i, (env.window_prerender i && env.window_cairo i) = false →
      Ev.cairo_paint i ∉ (main env).state.trace ∧
      Ev.window_render i ∉ (main env).state.trace) ∧
    (∀ (s0 s1 : State) (d : Dispatch) (ds : List Dispatch) (r : Int),
      startup env = Step.ret () s0 → env.events = d :: ds →
      wl_display_dispatch env.pam d s0 = Step.ret r s1 → r ≠ -1 →
      ∀ i, i < env.outputs.length →
        Ev.lock_set_lock_surface i i ∈ (main env).state.trace) := by
  obtain ⟨t0, q1, A, q2, htr, h0, hq1, hq2, hA⟩ := main_trace_shape env
  have hhead : ∀ x ∈ t0 ++ q1, x.isArm = false := by
    intro x hx
    rcases List.mem_append.mp hx with hx | hx
    · exact (h0 x hx).1
    · exact not_arm_of_quiet q1 hq1 x hx
  have hAarm : ∀ x ∈ A, x.isPaint = false := by
    intro x hx
    rcases hA with hA | ⟨hA, -⟩
    · rw [hA] at hx
      simp at hx
    · rw [hA] at hx
      simp only [List.mem_append, List.mem_map, List.mem_range, List.mem_singleton] at hx
      rcases hx with ⟨j, -, rfl⟩ | rfl
      · rfl
      · rfl
  have hsplit : ∀ pre post e, (main env).state.trace = pre ++ e :: post → e.isArm = true →
      ∃ m, pre = (t0 ++ q1) ++ m ∧ A ++ q2 = m ++ e :: post := by
    intro pre post e h he
    rw [htr, List.append_assoc (t0 ++ q1) A q2] at h
    rcases append_split (t0 ++ q1) (A ++ q2) pre post e h with hmem | hm
    · have := hhead e hmem
      rw [he] at this
      exact absurd this (by decide)
    · exact hm
  have hunpainted : ∀ (e : Ev), e.isPaint = true → e.guarded env = false →
      e ∉ (main env).state.trace := by
    intro e hp hg hmem
    rw [htr] at hmem
    simp only [List.mem_append] at hmem
    rcases hmem with ((hmem | hmem) | hmem) | hmem
    · have := (h0 e hmem).2
      rw [hg] at this
      exact absurd this (by decide)
    · have := not_paint_of_quiet q1 hq1 e hmem
      rw [hp] at this
      exact absurd this (by decide)
    · have := hAarm e hmem
      rw [hp] at this
      exact absurd this (by decide)
    · have := not_paint_of_quiet q2 hq2 e hmem
      rw [hp] at this
      exact absurd this (by decide)
  refine ⟨?_, ?_, ?_, ?_⟩
  · intro pre post e h he x hx
    obtain ⟨m, -, hm⟩ := hsplit pre post e h he
    have hxm : x ∈ A ++ q2 := by
      rw [hm]
      simp [hx]
    rcases List.mem_append.mp hxm with hxa | hxq
    · exact hAarm x hxa
    · exact not_paint_of_quiet q2 hq2 x hxq
  · intro i w pre post h
    obtain ⟨m, hpre, hm⟩ := hsplit pre post _ h rfl
    have hinA : Ev.lock_set_lock_surface i w ∈ A := by
      rcases append_split A q2 m post _ hm with hmem | ⟨m2, -, hq⟩
      · exact hmem
      · have hmem : Ev.lock_set_lock_surface i w ∈ q2 := by
          rw [hq]
          simp
        have := not_arm_of_quiet q2 hq2 _ hmem
        simp [Ev.isArm] at this
    rcases hA with hA | ⟨hA, hpaint⟩
    · rw [hA] at hinA
      simp at hinA
    · rw [hA] at hinA
      simp only [List.mem_append, List.mem_map, List.mem_range, List.mem_singleton,
        Ev.lock_set_lock_surface.injEq, reduceCtorEq, or_false] at hinA
      obtain ⟨j, hj, hji, hjw⟩ := hinA
      subst hji
      subst hjw
      refine ⟨rfl, hj, ?_⟩
      intro hp hc
      obtain ⟨h1, h2⟩ := hpaint j hj hp hc
      rw [hpre]
      exact ⟨by simp [h1], by simp [h2]⟩
  · intro i hi
    exact ⟨hunpainted (Ev.cairo_paint i) rfl hi, hunpainted (Ev.window_render i) rfl hi⟩
  · intro s0 s1 d ds r hstart hev hd hr i hi
    have hun : Unarmed s0 := by
      have := startup_unarmed env
      rw [hstart] at this
      exact this
    obtain ⟨hidx, hlen, -⟩ := startup_ret env s0 hstart
    obtain ⟨-, ext, hfirst, -⟩ :=
      session_loop_first env.pam env.outputs.length d ds s0 s1 r hun.1 hidx hlen hd hr
    rw [main_of_startup env s0 hstart, hev, hfirst]
    simp only [List.mem_append, List.mem_map, List.mem_range, List.mem_singleton]
    exact Or.inl (Or.inl (Or.inr ⟨i, hi, rfl⟩))

theorem main_painted_env :
    main painted_env = Run.blocked ⟨new_password painted_env,
      [⟨0, 1920, 1080⟩, ⟨1, 1280, 1024⟩], true, 0,
      [Ev.window_setup 0, Ev.window_setup 1,
        Ev.window_prerender 0, Ev.cairo_set_source 0, Ev.cairo_paint 0, Ev.window_render 0,
        Ev.window_prerender 1, Ev.cairo_set_source 1, Ev.cairo_paint 1, Ev.window_render 1,
        Ev.cairo_surface_destroy, Ev.wl_display_dispatch 1,
        Ev.lock_set_lock_surface 0 0, Ev.lock_set_lock_surface 1 1, Ev.locked_true]⟩ := by
  simp [main, startup, parse_options, create_surfaces, load_image, parse_scaling_mode,
    paint_surfaces, set_source, State.log, painted_env, session_loop, wl_display_dispatch,
    deliver_keys, lock_surfaces]

/-- Witness of C5 as amended: the second announcement of the run
`painted_env`. -/
theorem armament_after_paint_witness :
    (main painted_env).state.trace
      = [Ev.window_setup 0, Ev.window_setup 1,
          Ev.window_prerender 0, Ev.cairo_set_source 0, Ev.cairo_paint 0, Ev.window_render 0,
          Ev.window_prerender 1, Ev.cairo_set_source 1, Ev.cairo_paint 1, Ev.window_render 1,
          Ev.cairo_surface_destroy, Ev.wl_display_dispatch 1, Ev.lock_set_lock_surface 0 0]
        ++ Ev.lock_set_lock_surface 1 1 :: [Ev.locked_true] ∧
    (1 = 1 ∧ 1 < painted_env.outputs.length ∧
      (painted_env.window_prerender 1 = true → painted_env.window_cairo 1 = true →
        Ev.cairo_paint 1 ∈ [Ev.window_setup 0, Ev.window_setup 1,
          Ev.window_prerender 0, Ev.cairo_set_source 0, Ev.cairo_paint 0, Ev.window_render 0,
          Ev.window_prerender 1, Ev.cairo_set_source 1, Ev.cairo_paint 1, Ev.window_render 1,
          Ev.cairo_surface_destroy, Ev.wl_display_dispatch 1, Ev.lock_set_lock_surface 0 0] ∧
        Ev.window_render 1 ∈ [Ev.window_setup 0, Ev.window_setup 1,
          Ev.window_prerender 0, Ev.cairo_set_source 0, Ev.cairo_paint 0, Ev.window_render 0,
          Ev.window_prerender 1, Ev.cairo_set_source 1, Ev.cairo_paint 1, Ev.window_render 1,
          Ev.cairo_surface_destroy, Ev.wl_display_dispatch 1, Ev.lock_set_lock_surface 0 0])) :=
  have h : (main painted_env).state.trace
      = [Ev.window_setup 0, Ev.window_setup 1,
          Ev.window_prerender 0, Ev.cairo_set_source 0, Ev.cairo_paint 0, Ev.window_render 0,
          Ev.window_prerender 1, Ev.cairo_set_source 1, Ev.cairo_paint 1, Ev.window_render 1,
          Ev.cairo_surface_destroy, Ev.wl_display_dispatch 1, Ev.lock_set_lock_surface 0 0]
        ++ Ev.lock_set_lock_surface 1 1 :: [Ev.locked_true] := by
    rw [main_painted_env]
    rfl
  ⟨h, (armament_after_paint painted_env).2.1 1 1 _ _ h⟩

theorem main_unpainted_env :
    main unpainted_env = Run.blocked ⟨new_password unpainted_env, [⟨0, 1920, 1080⟩], true, 0,
      [Ev.window_setup 0, Ev.window_prerender 0, Ev.cairo_surface_destroy,
        Ev.wl_display_dispatch 1, Ev.lock_set_lock_surface 0 0, Ev.locked_true]⟩ := by
  simp [main, startup, parse_options, create_surfaces, load_image, parse_scaling_mode,
    paint_surfaces, State.log, unpainted_env, session_loop, wl_display_dispatch,
    deliver_keys, lock_surfaces]

/-- Counterexample of C5 as stated.  In the run `unpainted_env` the prerender
step of the only output fails, so its surface is never painted nor presented;
the first loop iteration still announces that surface as the lock surface of
the output.  The trace holds the announcement for output 0 and no `cairo_paint`
or `window_render` for its window before it. -/
theorem armament_before_paint_counterexample :
    (main unpainted_env).state.trace
      = [Ev.window_setup 0, Ev.window_prerender 0, Ev.cairo_surface_destroy,
        Ev.wl_display_dispatch 1] ++ Ev.lock_set_lock_surface 0 0 :: [Ev.locked_true] ∧
    Ev.cairo_paint 0 ∉ [Ev.window_setup 0, Ev.window_prerender 0, Ev.cairo_surface_destroy,
      Ev.wl_display_dispatch 1] ∧
    Ev.window_render 0 ∉ [Ev.window_setup 0, Ev.window_prerender 0, Ev.cairo_surface_destroy,
      Ev.wl_display_dispatch 1] ∧
    unpainted_env.window_prerender 0 = false := by
  rw [main_unpainted_env]
  exact ⟨rfl, by decide, by decide, rfl⟩

end Swaylock
